import Mathlib

/-! Brick chunk tessellation (BrickRenderComponent.cpp).

A shallow embedding of the chunk mesher that lives in the constructor of
`FBrickChunkSceneProxy`, together with the face tables it reads, and theorems
about the vertex, index and element sequences it produces.

Conventions of the embedding:

* brick coordinates (`int32` in the source) are unbounded integers: signed
  overflow is undefined behaviour in the source and is outside the model;
* the two narrowing stores of the source are explicit: a vertex component is
  stored in a `uint8` (`toUInt8`, reduction modulo 256) and a vertex index is
  stored in an `int16` (`toInt16`, two's complement wrap-around);
* `TArray::operator[]` out of range is a failure: the constructor returns
  `none`;
* `FBrickVertex::Padding0` is never written by the source and is not modelled.
-/

namespace BrickGrid

/-! ## Integer vectors and the grid collaborator -/

/-- Modelled from the spec: `FInt3` is declared in `BrickGridComponent.h`, which is
not part of the sources at hand; it is the integer 3-vector of the data model, with
componentwise arithmetic, shifts and bitwise and. -/
structure FInt3 where
  X : Int
  Y : Int
  Z : Int
deriving DecidableEq, Repr

namespace FInt3

/-- The vector with three equal components, `FInt3::Scalar`. -/
def Scalar (s : Int) : FInt3 := ⟨s, s, s⟩

instance : Add FInt3 := ⟨fun a b => ⟨a.X + b.X, a.Y + b.Y, a.Z + b.Z⟩⟩

instance : Sub FInt3 := ⟨fun a b => ⟨a.X - b.X, a.Y - b.Y, a.Z - b.Z⟩⟩

/-- Componentwise left shift, `operator<<`. -/
def shl (a b : FInt3) : FInt3 :=
  ⟨a.X * 2 ^ b.X.toNat, a.Y * 2 ^ b.Y.toNat, a.Z * 2 ^ b.Z.toNat⟩

/-- Componentwise arithmetic right shift, `operator>>`. -/
def shr (a b : FInt3) : FInt3 :=
  ⟨a.X / 2 ^ b.X.toNat, a.Y / 2 ^ b.Y.toNat, a.Z / 2 ^ b.Z.toNat⟩

/-- Componentwise bitwise and with the scalar one, `& FInt3::Scalar(1)`: the lowest bit
of each component. -/
def and1 (a : FInt3) : FInt3 := ⟨a.X % 2, a.Y % 2, a.Z % 2⟩

/-- Componentwise `a <= b`. -/
def le (a b : FInt3) : Prop := a.X ≤ b.X ∧ a.Y ≤ b.Y ∧ a.Z ≤ b.Z

/-- Componentwise `a < b`. -/
def lt (a b : FInt3) : Prop := a.X < b.X ∧ a.Y < b.Y ∧ a.Z < b.Z

instance (a b : FInt3) : Decidable (le a b) := by unfold le; infer_instance

instance (a b : FInt3) : Decidable (lt a b) := by unfold lt; infer_instance

end FInt3

/-- Modelled from the spec: `UBrickGridComponent` is declared in `BrickGridComponent.h`,
which is not part of the sources at hand. The mesher reads from it the brick query
`GetBrick`, the number of material slots `Parameters.Materials.Num()`, the reserved
`Parameters.EmptyMaterialIndex`, and the chunk size as `BricksPerRenderChunk` with its
logarithm `BricksPerRenderChunkLog2`. -/
structure UBrickGridComponent where
  GetBrick : FInt3 → Nat
  NumMaterials : Nat
  EmptyMaterialIndex : Nat
  BricksPerRenderChunkLog2 : FInt3
  BricksPerRenderChunk : FInt3

/-- The render component of one chunk: its chunk coordinates and its grid. -/
structure UBrickRenderComponent where
  Coordinates : FInt3
  Grid : UBrickGridComponent

/-! ## Face tables -/

/-- Maps brick corner indices to 3D coordinates:
`(FInt3::Scalar(BrickVertexIndex) >> FInt3(2,1,0)) & FInt3::Scalar(1)`. -/
def GetCornerVertexOffset (BrickVertexIndex : Nat) : FInt3 :=
  ((FInt3.Scalar BrickVertexIndex).shr ⟨2, 1, 0⟩).and1

/-- The rows of the table `FaceVertices[6][4]`. -/
def FaceVerticesTable : List (List Nat) :=
  [ [2, 3, 1, 0],    -- -X
    [4, 5, 7, 6],    -- +X
    [0, 1, 5, 4],    -- -Y
    [6, 7, 3, 2],    -- +Y
    [4, 6, 2, 0],    -- -Z
    [1, 3, 7, 5] ]   -- +Z

/-- Maps face index and face vertex index to brick corner indices. -/
def FaceVertices (FaceIndex FaceVertexIndex : Nat) : Nat :=
  ((FaceVerticesTable.getD FaceIndex []).getD FaceVertexIndex 0)

/-- The entries of the table `FaceNormals[6]`. -/
def FaceNormalsTable : List FInt3 :=
  [ ⟨-1, 0, 0⟩, ⟨1, 0, 0⟩, ⟨0, -1, 0⟩, ⟨0, 1, 0⟩, ⟨0, 0, -1⟩, ⟨0, 0, 1⟩ ]

/-- Maps face index to normal. -/
def FaceNormals (FaceIndex : Nat) : FInt3 :=
  FaceNormalsTable.getD FaceIndex ⟨0, 0, 0⟩

/-! ## Buffers -/

/-- An element of the vertex buffer; the three coordinates are `uint8`. -/
structure FBrickVertex where
  X : Nat
  Y : Nat
  Z : Nat
deriving DecidableEq, Repr

/-- A mesh element: a run of the index buffer drawn with one material and one face
direction. -/
structure FElement where
  FirstIndex : Nat
  NumPrimitives : Nat
  MaterialIndex : Nat
  FaceIndex : Nat
deriving DecidableEq, Repr

/-- The data the constructor leaves in the scene proxy: `VertexBuffer.Vertices`,
`IndexBuffer.Indices` (values of type `int16`) and `Elements`. -/
structure FBrickChunkSceneProxy where
  Vertices : List FBrickVertex
  Indices : List Int
  Elements : List FElement
deriving DecidableEq, Repr

/-- Conversion of an `int32` to `uint8`, as in `FaceVertex->X = Position.X`. -/
def toUInt8 (x : Int) : Nat := (x % 256).toNat

/-- Conversion of an `int32` to `int16`, as in `*FaceVertexIndex++ = BaseFaceVertexIndex + 0`. -/
def toInt16 (x : Int) : Int := (x + 32768) % 65536 - 32768

/-! ## The constructor of `FBrickChunkSceneProxy` -/

/-- The working state of the traversal: the vertex buffer and the table
`MaterialBatches[material].FaceBatches[face].Indices`. The table has
`Materials.Num()` rows of six batches; the row bound is checked where it is indexed. -/
structure FBuildState where
  Vertices : List FBrickVertex
  MaterialBatches : Nat → Nat → List Int

/-- The values `Lo, Lo+1, .., Hi-1` taken by the variable of `for(V = Lo; V < Hi; ++V)`. -/
def loopRange (Lo Hi : Int) : List Int :=
  (List.range (Hi - Lo).toNat).map (fun (i : Nat) => Lo + (i : Int))

/-- The vertex written for slot `FaceVertexIndex` of a face: `RelativeBrickCoordinates +
GetCornerVertexOffset(FaceVertices[FaceIndex][FaceVertexIndex])`, stored as `uint8`. -/
def FaceVertex (MinBrickCoordinates BrickCoordinates : FInt3) (FaceIndex FaceVertexIndex : Nat) :
    FBrickVertex :=
  let RelativeBrickCoordinates := BrickCoordinates - MinBrickCoordinates
  let Position := RelativeBrickCoordinates +
    GetCornerVertexOffset (FaceVertices FaceIndex FaceVertexIndex)
  ⟨toUInt8 Position.X, toUInt8 Position.Y, toUInt8 Position.Z⟩

/-- The six `int16` indices written for a face whose first vertex is `BaseFaceVertexIndex`. -/
def FaceIndices (BaseFaceVertexIndex : Int) : List Int :=
  [ toInt16 (BaseFaceVertexIndex + 0), toInt16 (BaseFaceVertexIndex + 1),
    toInt16 (BaseFaceVertexIndex + 2), toInt16 (BaseFaceVertexIndex + 0),
    toInt16 (BaseFaceVertexIndex + 2), toInt16 (BaseFaceVertexIndex + 3) ]

/-- The body of `if (Grid->GetBrick(FrontBrickXYZ) == EmptyMaterialIndex)`: four vertices are
appended to the vertex buffer and six indices to the batch of `(BrickMaterial, FaceIndex)`.
The lookup `MaterialBatches[BrickMaterial]` fails when the material is not a slot. -/
def WriteFace (NumMaterials : Nat) (MinBrickCoordinates BrickCoordinates : FInt3)
    (BrickMaterial FaceIndex : Nat) (s : FBuildState) : Option FBuildState :=
  let BaseFaceVertexIndex : Int := s.Vertices.length
  let Vertices := s.Vertices ++
    (List.range 4).map (FaceVertex MinBrickCoordinates BrickCoordinates FaceIndex)
  if BrickMaterial < NumMaterials then
    some ⟨Vertices, fun m f =>
      if m = BrickMaterial ∧ f = FaceIndex then
        s.MaterialBatches m f ++ FaceIndices BaseFaceVertexIndex
      else s.MaterialBatches m f⟩
  else none

/-- One iteration of `for(FaceIndex = 0; FaceIndex < 6; ++FaceIndex)`. -/
def FaceStep (Grid : UBrickGridComponent) (MinBrickCoordinates BrickCoordinates : FInt3)
    (BrickMaterial : Nat) (s : FBuildState) (FaceIndex : Nat) : Option FBuildState :=
  let FrontBrickXYZ := BrickCoordinates + FaceNormals FaceIndex
  if Grid.GetBrick FrontBrickXYZ = Grid.EmptyMaterialIndex then
    WriteFace Grid.NumMaterials MinBrickCoordinates BrickCoordinates BrickMaterial FaceIndex s
  else some s

/-- The body of the innermost coordinate loop, for one brick. -/
def BrickStep (Grid : UBrickGridComponent) (MinBrickCoordinates : FInt3) (s : FBuildState)
    (BrickCoordinates : FInt3) : Option FBuildState :=
  let BrickMaterial := Grid.GetBrick BrickCoordinates
  if BrickMaterial ≠ Grid.EmptyMaterialIndex then
    (List.range 6).foldlM (FaceStep Grid MinBrickCoordinates BrickCoordinates BrickMaterial) s
  else some s

/-- `MinBrickCoordinates = Component->Coordinates << Grid->BricksPerRenderChunkLog2`. -/
def MinBrickCoordinates (Component : UBrickRenderComponent) : FInt3 :=
  Component.Coordinates.shl Component.Grid.BricksPerRenderChunkLog2

/-- `MaxBrickCoordinatesPlus1 = MinBrickCoordinates + Grid->BricksPerRenderChunk +
FInt3::Scalar(1)`. -/
def MaxBrickCoordinatesPlus1 (Component : UBrickRenderComponent) : FInt3 :=
  MinBrickCoordinates Component + Component.Grid.BricksPerRenderChunk + FInt3.Scalar 1

/-- The three coordinate loops (`Y` outermost, then `X`, then `Z`). -/
def Traverse (Component : UBrickRenderComponent) : Option FBuildState :=
  let Grid := Component.Grid
  let Min := MinBrickCoordinates Component
  let MaxP1 := MaxBrickCoordinatesPlus1 Component
  (loopRange Min.Y MaxP1.Y).foldlM (fun s Y =>
    (loopRange Min.X MaxP1.X).foldlM (fun s X =>
      (loopRange Min.Z MaxP1.Z).foldlM (fun s Z =>
        BrickStep Grid Min s ⟨X, Y, Z⟩) s) s) ⟨[], fun _ _ => []⟩

/-- The body of the element loop for one `(MaterialIndex, FaceIndex)`: a non-empty batch
becomes an element that starts at the current end of the index buffer, and is appended
to the index buffer. -/
def ElementStep (MaterialBatches : Nat → Nat → List Int) (MaterialIndex : Nat)
    (acc : List Int × List FElement) (FaceIndex : Nat) : List Int × List FElement :=
  let FaceBatch := MaterialBatches MaterialIndex FaceIndex
  if FaceBatch.length > 0 then
    (acc.1 ++ FaceBatch,
      acc.2 ++ [⟨acc.1.length, FaceBatch.length / 3, MaterialIndex, FaceIndex⟩])
  else acc

/-- "Create mesh elements for each batch": materials ascending, the six faces inside.
(The preceding loop of the source only sums the sizes to reserve the index buffer.) -/
def CreateElements (NumMaterials : Nat) (MaterialBatches : Nat → Nat → List Int) :
    List Int × List FElement :=
  (List.range NumMaterials).foldl (fun acc MaterialIndex =>
    (List.range 6).foldl (ElementStep MaterialBatches MaterialIndex) acc) ([], [])

/-- The mesh-building part of the constructor `FBrickChunkSceneProxy(Component)`. -/
def FBrickChunkSceneProxy.ctor (Component : UBrickRenderComponent) :
    Option FBrickChunkSceneProxy :=
  match Traverse Component with
  | none => none
  | some s =>
    let r := CreateElements Component.Grid.NumMaterials s.MaterialBatches
    some ⟨s.Vertices, r.1, r.2⟩

/-! ## Test grids -/

/-- A grid with cubic chunks of `2 ^ Log2` bricks, `NumMaterials` material slots and empty
index 0. -/
def cubicGrid (Log2 : Nat) (NumMaterials : Nat) (GetBrick : FInt3 → Nat) : UBrickGridComponent :=
  ⟨GetBrick, NumMaterials, 0, FInt3.Scalar Log2, FInt3.Scalar (2 ^ Log2)⟩

/-- The example of the spec: chunk size 2, the brick at (0,0,0) holds material 1, every
other brick is empty. -/
def singleBrickGrid : UBrickGridComponent :=
  cubicGrid 1 2 (fun B => if B = ⟨0, 0, 0⟩ then 1 else 0)

/-- The chunk (0,0,0) of `singleBrickGrid`. -/
def singleBrickChunk : UBrickRenderComponent := ⟨⟨0, 0, 0⟩, singleBrickGrid⟩

/-! ## `GetMeshBatch` -/

/-- The fields of `Mesh.Elements[0]` that `GetMeshBatch` computes from an element and the
index buffer; all four are `uint32`. -/
structure FMeshBatchElement where
  FirstIndex : Nat
  NumPrimitives : Nat
  MinVertexIndex : Nat
  MaxVertexIndex : Nat
deriving DecidableEq, Repr

/-- Conversion of an `int16` to `uint32`, as in
`Mesh.Elements[0].MinVertexIndex = IndexBuffer.Indices[..]`: sign extension. -/
def toUInt32 (x : Int) : Nat := (x % 4294967296).toNat

/-- The index arithmetic and the two reads of the index buffer in `GetMeshBatch`. The
position of the second read, `Element.FirstIndex + Element.NumPrimitives * 3 - 1`, is
computed in `uint32`. A read of `Elements` or `Indices` out of range is a failure. (The
other fields of the mesh batch, material proxy and vertex factory among them, are not
modelled.) -/
def FBrickChunkSceneProxy.GetMeshBatch (r : FBrickChunkSceneProxy) (ElementIndex : Nat) :
    Option FMeshBatchElement :=
  match r.Elements[ElementIndex]? with
  | none => none
  | some Element =>
    match r.Indices[Element.FirstIndex]?,
      r.Indices[(Element.FirstIndex + Element.NumPrimitives * 3 + 4294967295) % 4294967296]? with
    | some MinVertexIndex, some MaxVertexIndex =>
      some ⟨Element.FirstIndex, Element.NumPrimitives, toUInt32 MinVertexIndex,
        toUInt32 MaxVertexIndex⟩
    | _, _ => none

/-! ## The traversal as a list of faces -/

/-- The brick coordinates visited by the three coordinate loops, in order. -/
def TraversalBricks (Component : UBrickRenderComponent) : List FInt3 :=
  let Min := MinBrickCoordinates Component
  let MaxP1 := MaxBrickCoordinatesPlus1 Component
  (loopRange Min.Y MaxP1.Y).flatMap fun Y =>
    (loopRange Min.X MaxP1.X).flatMap fun X =>
      (loopRange Min.Z MaxP1.Z).map fun Z => (⟨X, Y, Z⟩ : FInt3)

/-- The faces written for one visited brick: none for an empty brick, otherwise the
directions whose front brick is empty, in the order 0..5. -/
def BrickFaces (Grid : UBrickGridComponent) (B : FInt3) : List (FInt3 × Nat) :=
  if Grid.GetBrick B ≠ Grid.EmptyMaterialIndex then
    ((List.range 6).filter fun D =>
      decide (Grid.GetBrick (B + FaceNormals D) = Grid.EmptyMaterialIndex)).map fun D => (B, D)
  else []

/-- The faces written by the traversal, each as (brick, direction), in order. -/
def EmittedFaces (Component : UBrickRenderComponent) : List (FInt3 × Nat) :=
  (TraversalBricks Component).flatMap (BrickFaces Component.Grid)

/-- The four vertices written for a face. -/
def QuadVertices (Min : FInt3) (f : FInt3 × Nat) : List FBrickVertex :=
  (List.range 4).map (FaceVertex Min f.1 f.2)

/-- The indices that a list of faces appends to the batch `(m, d)` when the first of
the faces gets base vertex index `n`. -/
def BatchOf (Grid : UBrickGridComponent) : List (FInt3 × Nat) → Nat → Nat → Nat → List Int
  | [], _, _, _ => []
  | f :: fs, n, m, d =>
    (if m = Grid.GetBrick f.1 ∧ d = f.2 then FaceIndices (n : Int) else []) ++
      BatchOf Grid fs (n + 4) m d

/-- Writing one face of the list. -/
def EmitFace (Grid : UBrickGridComponent) (Min : FInt3) (s : FBuildState) (f : FInt3 × Nat) :
    Option FBuildState :=
  WriteFace Grid.NumMaterials Min f.1 (Grid.GetBrick f.1) f.2 s

/-- The state reached from `s` after writing the faces `fs`. -/
def StateAfter (Grid : UBrickGridComponent) (Min : FInt3) (fs : List (FInt3 × Nat))
    (s : FBuildState) : FBuildState :=
  ⟨s.Vertices ++ fs.flatMap (QuadVertices Min),
    fun m d => s.MaterialBatches m d ++ BatchOf Grid fs s.Vertices.length m d⟩

/-- The `(MaterialIndex, FaceIndex)` pairs visited by the element loops, in order. -/
def BatchPairs (NumMaterials : Nat) : List (Nat × Nat) :=
  (List.range NumMaterials).flatMap fun m => (List.range 6).map fun d => (m, d)

/-- The elements created for a list of `(MaterialIndex, FaceIndex)` pairs when the index
buffer already holds `n` indices. -/
def ElementsFrom (MaterialBatches : Nat → Nat → List Int) : Nat → List (Nat × Nat) → List FElement
  | _, [] => []
  | n, p :: ps =>
    if (MaterialBatches p.1 p.2).length > 0 then
      ⟨n, (MaterialBatches p.1 p.2).length / 3, p.1, p.2⟩ ::
        ElementsFrom MaterialBatches (n + (MaterialBatches p.1 p.2).length) ps
    else ElementsFrom MaterialBatches n ps

/-- The elements `Es` are consecutive runs that start at `s` and end at `e`: the first
starts at `s`, each next one starts where the previous one ends, the last ends at `e`. -/
def Tiles : Nat → List FElement → Nat → Prop
  | s, [], e => s = e
  | s, E :: Es, e => E.FirstIndex = s ∧ Tiles (E.FirstIndex + 3 * E.NumPrimitives) Es e

/-- The run of the index buffer that an element refers to. -/
def ElementRun (r : FBrickChunkSceneProxy) (E : FElement) : List Int :=
  (r.Indices.drop E.FirstIndex).take (3 * E.NumPrimitives)

/-- The batch `(m, d)` receives a face: some visited brick holds the material `m`, which
is not the empty material, and its front brick in direction `d` is empty. -/
def ReceivesFace (Component : UBrickRenderComponent) (m d : Nat) : Prop :=
  ∃ B : FInt3, (MinBrickCoordinates Component).le B ∧
    B.lt (MaxBrickCoordinatesPlus1 Component) ∧ d < 6 ∧
    Component.Grid.GetBrick B = m ∧ m ≠ Component.Grid.EmptyMaterialIndex ∧
    Component.Grid.GetBrick (B + FaceNormals d) = Component.Grid.EmptyMaterialIndex

/-- The mesh the source builds for `singleBrickChunk`. -/
def singleBrickMesh : FBrickChunkSceneProxy :=
  ⟨[⟨0, 1, 0⟩, ⟨0, 1, 1⟩, ⟨0, 0, 1⟩, ⟨0, 0, 0⟩, ⟨1, 0, 0⟩, ⟨1, 0, 1⟩, ⟨1, 1, 1⟩, ⟨1, 1, 0⟩,
    ⟨0, 0, 0⟩, ⟨0, 0, 1⟩, ⟨1, 0, 1⟩, ⟨1, 0, 0⟩, ⟨1, 1, 0⟩, ⟨1, 1, 1⟩, ⟨0, 1, 1⟩, ⟨0, 1, 0⟩,
    ⟨1, 0, 0⟩, ⟨1, 1, 0⟩, ⟨0, 1, 0⟩, ⟨0, 0, 0⟩, ⟨0, 0, 1⟩, ⟨0, 1, 1⟩, ⟨1, 1, 1⟩, ⟨1, 0, 1⟩],
   [0, 1, 2, 0, 2, 3, 4, 5, 6, 4, 6, 7, 8, 9, 10, 8, 10, 11, 12, 13, 14, 12, 14, 15,
    16, 17, 18, 16, 18, 19, 20, 21, 22, 20, 22, 23],
   [⟨0, 2, 1, 0⟩, ⟨6, 2, 1, 1⟩, ⟨12, 2, 1, 2⟩, ⟨18, 2, 1, 3⟩, ⟨24, 2, 1, 4⟩, ⟨30, 2, 1, 5⟩]⟩

/-- The position `(B - MinBrickCoordinates) + GetCornerVertexOffset(FaceVertices[D][k])`,
as a vertex. -/
def CornerPosition (Min B : FInt3) (D k : Nat) : FBrickVertex :=
  let P := (B - Min) + GetCornerVertexOffset (FaceVertices D k)
  ⟨P.X.toNat, P.Y.toNat, P.Z.toNat⟩

/-- The vertex sequence contains, at a position that is a multiple of four, the run of
the four corner positions of the face `D` of the brick `B`. -/
def HasQuad (Vertices : List FBrickVertex) (Min B : FInt3) (D : Nat) : Prop :=
  ∃ q : Nat, ∀ k, k < 4 → Vertices[4 * q + k]? = some (CornerPosition Min B D k)

/-- The indices of the batch of direction `d` when the six faces of one brick are the only
faces. -/
def singleBatch (d : Nat) : List Int :=
  [[0, 1, 2, 0, 2, 3], [4, 5, 6, 4, 6, 7], [8, 9, 10, 8, 10, 11], [12, 13, 14, 12, 14, 15],
    [16, 17, 18, 16, 18, 19], [20, 21, 22, 20, 22, 23]].getD d []

/-- The elements created when the six faces of one brick of material `M` are the only
faces. -/
def singleElements (M : Nat) : List FElement :=
  [⟨0, 2, M, 0⟩, ⟨6, 2, M, 1⟩, ⟨12, 2, M, 2⟩, ⟨18, 2, M, 3⟩, ⟨24, 2, M, 4⟩, ⟨30, 2, M, 5⟩]

/-- The index buffer created when the six faces of one brick are the only faces. -/
def singleIndices : List Int :=
  [0, 1, 2, 0, 2, 3, 4, 5, 6, 4, 6, 7, 8, 9, 10, 8, 10, 11, 12, 13, 14, 12, 14, 15,
    16, 17, 18, 16, 18, 19, 20, 21, 22, 20, 22, 23]

/-- The number of the quad that a stored index refers to when the index is read as an
unsigned 16-bit integer: four vertices per quad. -/
def quadOf (idx : Int) : Nat := (idx % 65536).toNat / 4

/-- A grid with chunks of 16 bricks per axis in which the bricks with an even coordinate
sum hold material 1 and the others are empty. -/
def checkerGrid : UBrickGridComponent :=
  cubicGrid 4 2 (fun B => if (B.X + B.Y + B.Z) % 2 = 0 then 1 else 0)

/-- The chunk (0,0,0) of `checkerGrid`. -/
def checkerChunk : UBrickRenderComponent := ⟨⟨0, 0, 0⟩, checkerGrid⟩

/-- A grid with chunks of 2 bricks per axis whose only solid brick is (2,0,0): the first
brick beyond the chunk (0,0,0) along X. -/
def haloBrickGrid : UBrickGridComponent :=
  cubicGrid 1 2 (fun B => if B = ⟨2, 0, 0⟩ then 1 else 0)

/-- The chunk (0,0,0) of `haloBrickGrid`; its own bricks are those with all coordinates
in `{0, 1}`. -/
def haloBrickChunk : UBrickRenderComponent := ⟨⟨0, 0, 0⟩, haloBrickGrid⟩

/-- The grid `haloBrickGrid` with one more solid brick at (3,0,0), two bricks beyond the
chunk (0,0,0) along X. -/
def haloBrickGrid2 : UBrickGridComponent :=
  cubicGrid 1 2 (fun B => if B = ⟨2, 0, 0⟩ ∨ B = ⟨3, 0, 0⟩ then 1 else 0)

/-- The chunk (0,0,0) of `haloBrickGrid2`. -/
def haloBrickChunk2 : UBrickRenderComponent := ⟨⟨0, 0, 0⟩, haloBrickGrid2⟩

/-- The cross product of two integer vectors. -/
def FInt3.cross (a b : FInt3) : FInt3 :=
  ⟨a.Y * b.Z - a.Z * b.Y, a.Z * b.X - a.X * b.Z, a.X * b.Y - a.Y * b.X⟩

/-- The dot product of two integer vectors. -/
def FInt3.dot (a b : FInt3) : Int := a.X * b.X + a.Y * b.Y + a.Z * b.Z

/-- A stored vertex as an integer vector. -/
def FBrickVertex.toFInt3 (v : FBrickVertex) : FInt3 := ⟨v.X, v.Y, v.Z⟩

/-- The dot product of the normal `N` with the cross product of the edges of the triangle
`(v0, v1, v2)`, `(v1 - v0) x (v2 - v0)`: positive when the right-hand-rule normal of the
triangle points to the side of `N`, negative when it points to the opposite side. -/
def TriangleFacing (v0 v1 v2 : FBrickVertex) (N : FInt3) : Int :=
  ((v1.toFInt3 - v0.toFInt3).cross (v2.toFInt3 - v0.toFInt3)).dot N

/-- A grid with chunks of 2 bricks per axis and 3 material slots: the brick (0,0,0) holds
material 1, its neighbour (1,0,0) holds material 2, every other brick is empty. -/
def twoMaterialGrid : UBrickGridComponent :=
  cubicGrid 1 3 (fun B => if B = ⟨0, 0, 0⟩ then 1 else if B = ⟨1, 0, 0⟩ then 2 else 0)

/-- The chunk (0,0,0) of `twoMaterialGrid`. -/
def twoMaterialChunk : UBrickRenderComponent := ⟨⟨0, 0, 0⟩, twoMaterialGrid⟩

/-- The base vertex indices of the faces that a list of faces contributes to the batch
`(m, d)`, in order, when the first of the faces gets base vertex index `n`. -/
def BasesOf (Grid : UBrickGridComponent) : List (FInt3 × Nat) → Nat → Nat → Nat → List Nat
  | [], _, _, _ => []
  | f :: fs, n, m, d =>
    (if m = Grid.GetBrick f.1 ∧ d = f.2 then [n] else []) ++ BasesOf Grid fs (n + 4) m d

/-- The six indices `(b, b+1, b+2, b, b+2, b+3)` of the two triangles of the quad whose
first vertex is `b`. -/
def QuadGroup (b : Nat) : List Int :=
  [(b : Int), (b : Int) + 1, (b : Int) + 2, (b : Int), (b : Int) + 2, (b : Int) + 3]

/-- A grid with chunks of 32 bricks per axis in which the bricks with an even X coordinate
hold material 1 and the others are empty: solid slabs one brick thick, one brick apart. -/
def slabGrid : UBrickGridComponent :=
  cubicGrid 5 2 (fun B => if B.X % 2 = 0 then 1 else 0)

/-- The chunk (0,0,0) of `slabGrid`. -/
def slabChunk : UBrickRenderComponent := ⟨⟨0, 0, 0⟩, slabGrid⟩

/-- The face -X of the solid brick number `n` of `slabChunk`, the bricks
`(2 * i, j, k)` with `i < 17`, `j < 33`, `k < 33` being numbered `i + 17 * j + 561 * k`. -/
def slabFace (n : Nat) : FInt3 × Nat :=
  (⟨2 * ((n % 17 : Nat) : Int), ((n / 17 % 33 : Nat) : Int), ((n / 561 : Nat) : Int)⟩, 0)

/-- The grid plane that a face lies in: the axis of the face (0, 1, 2 for X, Y, Z) and the
coordinates of the brick on the positive side of the face. -/
def FaceSlot (f : FInt3 × Nat) : Nat × Int × Int × Int :=
  (f.2 / 2, f.1.X + (if f.2 = 1 then 1 else 0), f.1.Y + (if f.2 = 3 then 1 else 0),
    f.1.Z + (if f.2 = 5 then 1 else 0))

/-- The planes of the faces of the bricks with coordinates from `Lo` (inclusive) to `Hi`
(exclusive): along its own axis a plane may also lie at `Hi`. -/
def BoxSlots (Lo Hi : FInt3) : Finset (Nat × Int × Int × Int) :=
  (({0} : Finset Nat) ×ˢ (Finset.Ico Lo.X (Hi.X + 1) ×ˢ (Finset.Ico Lo.Y Hi.Y ×ˢ
      Finset.Ico Lo.Z Hi.Z))) ∪
    ((({1} : Finset Nat) ×ˢ (Finset.Ico Lo.X Hi.X ×ˢ (Finset.Ico Lo.Y (Hi.Y + 1) ×ˢ
      Finset.Ico Lo.Z Hi.Z))) ∪
    (({2} : Finset Nat) ×ˢ (Finset.Ico Lo.X Hi.X ×ˢ (Finset.Ico Lo.Y Hi.Y ×ˢ
      Finset.Ico Lo.Z (Hi.Z + 1)))))

/-- An integer vector times a scalar. -/
def FInt3.smul (a : FInt3) (s : Int) : FInt3 := ⟨a.X * s, a.Y * s, a.Z * s⟩

/-- The direction of the vector that `FBrickChunkVertexFactory::Init` normalises to get
the tangent of face `FaceIndex`: `T - N * (T | N)` for `T = (+1, -1, 0)` and
`N = FaceNormals[FaceIndex]`. The source works in floating point with
`T = FVector(+1,-1,0).SafeNormal()`, so its unnormalised vector is a positive multiple of
this one; lengths, and with them the normalisation itself, are not modelled. -/
def ProjectedFaceTangentDirection (FaceIndex : Nat) : FInt3 :=
  (⟨1, -1, 0⟩ : FInt3) -
    (FaceNormals FaceIndex).smul ((⟨1, -1, 0⟩ : FInt3).dot (FaceNormals FaceIndex))

/-- The number whose sign `Init` stores as the handedness of face `FaceIndex`, up to a
positive factor: `UnprojectedTangentY | (FaceNormal ^ ProjectedFaceTangentX)` with
`UnprojectedTangentY = (-1, -1, -1)`, computed for the unnormalised direction. -/
def TangentHandedness (FaceIndex : Nat) : Int :=
  (⟨-1, -1, -1⟩ : FInt3).dot
    ((FaceNormals FaceIndex).cross (ProjectedFaceTangentDirection FaceIndex))

/-! ## The traversal is a fold over the emitted faces -/

theorem foldlM_flatMap_option {α β σ : Type} (f : α → List β) (g : σ → β → Option σ)
    (l : List α) (s : σ) :
    (l.flatMap f).foldlM g s = l.foldlM (fun s a => (f a).foldlM g s) s := by
  induction l generalizing s with
  | nil => rfl
  | cons a l ih =>
    rw [List.flatMap_cons, List.foldlM_append, List.foldlM_cons]
    cases h : (f a).foldlM g s with
    | none => rfl
    | some s' => exact ih s'

theorem foldlM_filter_option {β σ : Type} (p : β → Bool) (g : σ → β → Option σ)
    (l : List β) (s : σ) :
    (l.filter p).foldlM g s = l.foldlM (fun s b => if p b then g s b else some s) s := by
  induction l generalizing s with
  | nil => rfl
  | cons b l ih =>
    by_cases hb : p b
    · rw [List.filter_cons_of_pos hb, List.foldlM_cons, List.foldlM_cons]
      simp only [hb, if_true]
      cases h : g s b with
      | none => rfl
      | some s' => exact ih s'
    · rw [List.filter_cons_of_neg hb, List.foldlM_cons]
      simp only [hb]
      exact ih s

theorem flatMap_eq_of_single {α β : Type} (l : List α) (f : α → List β) (a : α)
    (hnd : l.Nodup) (ha : a ∈ l) (hf : ∀ b ∈ l, b ≠ a → f b = []) :
    l.flatMap f = f a := by
  induction l with
  | nil => simp at ha
  | cons b l ih =>
    rw [List.nodup_cons] at hnd
    rw [List.flatMap_cons]
    by_cases hb : b = a
    · subst hb
      have hrest : l.flatMap f = [] := by
        rw [List.flatMap_eq_nil_iff]
        intro c hc
        apply hf c (List.mem_cons_of_mem _ hc)
        rintro rfl
        exact hnd.1 hc
      rw [hrest, List.append_nil]
    · rw [hf b (List.mem_cons_self _ _) hb, List.nil_append]
      apply ih hnd.2
      · rcases List.mem_cons.1 ha with h | h
        · exact absurd h.symm hb
        · exact h
      · intro c hc
        exact hf c (List.mem_cons_of_mem _ hc)

theorem BrickStep_eq (Grid : UBrickGridComponent) (Min : FInt3) (s : FBuildState) (B : FInt3) :
    BrickStep Grid Min s B = (BrickFaces Grid B).foldlM (EmitFace Grid Min) s := by
  unfold BrickStep BrickFaces
  by_cases h : Grid.GetBrick B = Grid.EmptyMaterialIndex
  · simp [h]
  · simp only [ne_eq, h, not_false_eq_true, if_true]
    rw [List.foldlM_map, foldlM_filter_option]
    congr 1
    funext s D
    simp [FaceStep, EmitFace]

theorem Traverse_eq (Component : UBrickRenderComponent) :
    Traverse Component =
      (EmittedFaces Component).foldlM
        (EmitFace Component.Grid (MinBrickCoordinates Component)) ⟨[], fun _ _ => []⟩ := by
  unfold Traverse EmittedFaces TraversalBricks
  simp only [foldlM_flatMap_option, List.foldlM_map, BrickStep_eq]

theorem foldlM_EmitFace (Grid : UBrickGridComponent) (Min : FInt3) (fs : List (FInt3 × Nat))
    (s : FBuildState) :
    fs.foldlM (EmitFace Grid Min) s =
      if fs.all (fun f => decide (Grid.GetBrick f.1 < Grid.NumMaterials)) then
        some (StateAfter Grid Min fs s)
      else none := by
  induction fs generalizing s with
  | nil => simp [StateAfter, BatchOf]
  | cons f fs ih =>
    rw [List.foldlM_cons]
    by_cases hf : Grid.GetBrick f.1 < Grid.NumMaterials
    · have h1 : EmitFace Grid Min s f = some ⟨s.Vertices ++ QuadVertices Min f, fun m d =>
          if m = Grid.GetBrick f.1 ∧ d = f.2 then
            s.MaterialBatches m d ++ FaceIndices (s.Vertices.length : Int)
          else s.MaterialBatches m d⟩ := by
        simp [EmitFace, WriteFace, hf, QuadVertices]
      rw [h1]
      simp only [Option.bind_eq_bind, Option.some_bind, ih, List.all_cons, hf, decide_True,
        Bool.true_and]
      congr 1
      apply congrArg
      simp only [StateAfter, List.flatMap_cons, List.append_assoc, BatchOf, List.length_append,
        QuadVertices, List.length_map, List.length_range]
      congr 1
      funext m d
      by_cases hmd : m = Grid.GetBrick f.1 ∧ d = f.2
      · simp [hmd]
      · simp [hmd]
    · have h1 : EmitFace Grid Min s f = none := by
        simp [EmitFace, WriteFace, hf]
      rw [h1]
      simp [hf]

/-! ## The element loop -/

theorem foldl_flatMap_eq {α β σ : Type} (f : α → List β) (g : σ → β → σ) (l : List α) (s : σ) :
    (l.flatMap f).foldl g s = l.foldl (fun s a => (f a).foldl g s) s := by
  induction l generalizing s with
  | nil => rfl
  | cons a l ih => rw [List.flatMap_cons, List.foldl_append, List.foldl_cons, ih]

theorem foldl_ElementStep (MB : Nat → Nat → List Int) (ps : List (Nat × Nat))
    (acc : List Int × List FElement) :
    ps.foldl (fun acc p => ElementStep MB p.1 acc p.2) acc =
      (acc.1 ++ ps.flatMap (fun p => MB p.1 p.2), acc.2 ++ ElementsFrom MB acc.1.length ps) := by
  induction ps generalizing acc with
  | nil => simp [ElementsFrom]
  | cons p ps ih =>
    rw [List.foldl_cons, ih]
    by_cases h : (MB p.1 p.2).length > 0
    · simp [ElementStep, ElementsFrom, h]
    · have h0 : MB p.1 p.2 = [] := by
        cases hb : MB p.1 p.2 with
        | nil => rfl
        | cons a l => rw [hb] at h; simp at h
      simp [ElementStep, ElementsFrom, h0]

theorem CreateElements_eq (NumMaterials : Nat) (MB : Nat → Nat → List Int) :
    CreateElements NumMaterials MB =
      ((BatchPairs NumMaterials).flatMap (fun p => MB p.1 p.2),
        ElementsFrom MB 0 (BatchPairs NumMaterials)) := by
  have h := foldl_ElementStep MB (BatchPairs NumMaterials) ([], [])
  simp only [List.nil_append, List.length_nil] at h
  rw [← h]
  unfold CreateElements BatchPairs
  rw [foldl_flatMap_eq]
  simp only [List.foldl_map]

/-- The constructor in closed form: it succeeds exactly when every emitted face has a
material that is a slot, and then its buffers are given by the list of emitted faces. -/
theorem ctor_eq (Component : UBrickRenderComponent) :
    FBrickChunkSceneProxy.ctor Component =
      if (EmittedFaces Component).all
          (fun f => decide (Component.Grid.GetBrick f.1 < Component.Grid.NumMaterials)) then
        some ⟨(EmittedFaces Component).flatMap (QuadVertices (MinBrickCoordinates Component)),
          (BatchPairs Component.Grid.NumMaterials).flatMap
            (fun p => BatchOf Component.Grid (EmittedFaces Component) 0 p.1 p.2),
          ElementsFrom (BatchOf Component.Grid (EmittedFaces Component) 0) 0
            (BatchPairs Component.Grid.NumMaterials)⟩
      else none := by
  unfold FBrickChunkSceneProxy.ctor
  rw [Traverse_eq, foldlM_EmitFace]
  by_cases hall : (EmittedFaces Component).all
      (fun f => decide (Component.Grid.GetBrick f.1 < Component.Grid.NumMaterials)) = true
  · simp only [hall, if_true]
    simp [StateAfter, CreateElements_eq]
  · simp only [hall]
    rfl

theorem ctor_some {Component : UBrickRenderComponent} {r : FBrickChunkSceneProxy}
    (h : FBrickChunkSceneProxy.ctor Component = some r) :
    (∀ f ∈ EmittedFaces Component, Component.Grid.GetBrick f.1 < Component.Grid.NumMaterials) ∧
    r.Vertices = (EmittedFaces Component).flatMap (QuadVertices (MinBrickCoordinates Component)) ∧
    r.Indices = (BatchPairs Component.Grid.NumMaterials).flatMap
      (fun p => BatchOf Component.Grid (EmittedFaces Component) 0 p.1 p.2) ∧
    r.Elements = ElementsFrom (BatchOf Component.Grid (EmittedFaces Component) 0) 0
      (BatchPairs Component.Grid.NumMaterials) := by
  rw [ctor_eq] at h
  split at h
  · rename_i hall
    rw [List.all_eq_true] at hall
    injection h with h
    subst h
    refine ⟨fun f hf => ?_, rfl, rfl, rfl⟩
    simpa using hall f hf
  · cases h

theorem ctor_of_valid (Component : UBrickRenderComponent)
    (h : ∀ f ∈ EmittedFaces Component,
      Component.Grid.GetBrick f.1 < Component.Grid.NumMaterials) :
    ∃ r, FBrickChunkSceneProxy.ctor Component = some r := by
  rw [ctor_eq]
  have hall : (EmittedFaces Component).all
      (fun f => decide (Component.Grid.GetBrick f.1 < Component.Grid.NumMaterials)) = true := by
    rw [List.all_eq_true]
    intro f hf
    simpa using h f hf
  rw [if_pos hall]
  exact ⟨_, rfl⟩

/-! ## Which faces are emitted -/

theorem mem_loopRange (Lo Hi x : Int) : x ∈ loopRange Lo Hi ↔ Lo ≤ x ∧ x < Hi := by
  unfold loopRange
  rw [List.mem_map]
  constructor
  · rintro ⟨i, hi, rfl⟩
    rw [List.mem_range] at hi
    omega
  · rintro ⟨h1, h2⟩
    refine ⟨(x - Lo).toNat, ?_, ?_⟩
    · rw [List.mem_range]
      omega
    · omega

theorem mem_TraversalBricks (Component : UBrickRenderComponent) (B : FInt3) :
    B ∈ TraversalBricks Component ↔
      (MinBrickCoordinates Component).le B ∧ B.lt (MaxBrickCoordinatesPlus1 Component) := by
  unfold TraversalBricks
  simp only [List.mem_flatMap, List.mem_map, mem_loopRange, FInt3.le, FInt3.lt]
  constructor
  · rintro ⟨Y, hY, X, hX, Z, hZ, rfl⟩
    exact ⟨⟨hX.1, hY.1, hZ.1⟩, hX.2, hY.2, hZ.2⟩
  · rintro ⟨⟨h1, h2, h3⟩, h4, h5, h6⟩
    exact ⟨B.Y, ⟨h2, h5⟩, B.X, ⟨h1, h4⟩, B.Z, ⟨h3, h6⟩, rfl⟩

theorem mem_BrickFaces (Grid : UBrickGridComponent) (B : FInt3) (f : FInt3 × Nat) :
    f ∈ BrickFaces Grid B ↔
      f.1 = B ∧ f.2 < 6 ∧ Grid.GetBrick B ≠ Grid.EmptyMaterialIndex ∧
        Grid.GetBrick (B + FaceNormals f.2) = Grid.EmptyMaterialIndex := by
  unfold BrickFaces
  by_cases h : Grid.GetBrick B = Grid.EmptyMaterialIndex
  · simp [h]
  · simp only [ne_eq, h, not_false_eq_true, if_true, List.mem_map, List.mem_filter,
      List.mem_range, decide_eq_true_eq, true_and]
    constructor
    · rintro ⟨D, ⟨hD, hE⟩, rfl⟩
      exact ⟨rfl, hD, hE⟩
    · rintro ⟨h1, h2, h3⟩
      exact ⟨f.2, ⟨h2, h3⟩, by rw [← h1]⟩

/-- A face is emitted exactly when its brick is visited and solid and the brick in
front of the face is empty. -/
theorem mem_EmittedFaces (Component : UBrickRenderComponent) (B : FInt3) (D : Nat) :
    (B, D) ∈ EmittedFaces Component ↔
      B ∈ TraversalBricks Component ∧ D < 6 ∧
        Component.Grid.GetBrick B ≠ Component.Grid.EmptyMaterialIndex ∧
        Component.Grid.GetBrick (B + FaceNormals D) = Component.Grid.EmptyMaterialIndex := by
  unfold EmittedFaces
  simp only [List.mem_flatMap, mem_BrickFaces]
  constructor
  · rintro ⟨B', hB', rfl, h⟩
    exact ⟨hB', h⟩
  · rintro ⟨hB, h⟩
    exact ⟨B, hB, rfl, h⟩

theorem nodup_loopRange (Lo Hi : Int) : (loopRange Lo Hi).Nodup := by
  unfold loopRange
  apply List.Nodup.map _ (List.nodup_range _)
  intro i j hij
  simp only at hij
  omega

theorem nodup_TraversalBricks (Component : UBrickRenderComponent) :
    (TraversalBricks Component).Nodup := by
  unfold TraversalBricks
  simp only
  rw [List.nodup_flatMap]
  constructor
  · intro Y _
    rw [List.nodup_flatMap]
    constructor
    · intro X _
      apply List.Nodup.map _ (nodup_loopRange _ _)
      intro a b hab
      simp only [FInt3.mk.injEq] at hab
      exact hab.2.2
    · refine (nodup_loopRange _ _).imp ?_
      intro a b hab
      simp only [Function.onFun]
      rw [List.disjoint_left]
      intro B h1 h2
      rw [List.mem_map] at h1 h2
      obtain ⟨_, _, rfl⟩ := h1
      obtain ⟨_, _, h⟩ := h2
      simp only [FInt3.mk.injEq] at h
      exact hab h.1.symm
  · refine (nodup_loopRange _ _).imp ?_
    intro a b hab
    simp only [Function.onFun]
    rw [List.disjoint_left]
    intro B h1 h2
    simp only [List.mem_flatMap, List.mem_map] at h1 h2
    obtain ⟨_, _, _, _, rfl⟩ := h1
    obtain ⟨_, _, _, _, h⟩ := h2
    simp only [FInt3.mk.injEq] at h
    exact hab h.2.1.symm

/-! ## The vertex buffer, quad by quad -/

theorem length_QuadVertices (Min : FInt3) (f : FInt3 × Nat) : (QuadVertices Min f).length = 4 := by
  simp [QuadVertices]

theorem length_flatMap_QuadVertices (Min : FInt3) (fs : List (FInt3 × Nat)) :
    (fs.flatMap (QuadVertices Min)).length = 4 * fs.length := by
  induction fs with
  | nil => rfl
  | cons f fs ih =>
    rw [List.flatMap_cons, List.length_append, ih, length_QuadVertices, List.length_cons]
    omega

theorem getElem?_QuadVertices (Min : FInt3) (f : FInt3 × Nat) (k : Nat) (hk : k < 4) :
    (QuadVertices Min f)[k]? = some (FaceVertex Min f.1 f.2 k) := by
  unfold QuadVertices
  rw [List.getElem?_map, List.getElem?_range hk]
  rfl

/-- Vertex `4 * q + k` of the buffer is vertex `k` of the face number `q`. -/
theorem getElem?_flatMap_QuadVertices (Min : FInt3) (fs : List (FInt3 × Nat)) (q k : Nat)
    (hk : k < 4) :
    (fs.flatMap (QuadVertices Min))[4 * q + k]? =
      (fs[q]?).map (fun f => FaceVertex Min f.1 f.2 k) := by
  induction fs generalizing q with
  | nil => simp
  | cons f fs ih =>
    rw [List.flatMap_cons]
    cases q with
    | zero =>
      rw [List.getElem?_append_left (by rw [length_QuadVertices]; omega)]
      simp [getElem?_QuadVertices Min f k hk]
    | succ q =>
      rw [List.getElem?_append_right (by rw [length_QuadVertices]; omega), length_QuadVertices]
      have e : 4 * (q + 1) + k - 4 = 4 * q + k := by omega
      rw [e, ih q]
      simp

/-! ## The batches -/

theorem length_FaceIndices (b : Int) : (FaceIndices b).length = 6 := rfl

theorem mem_FaceIndices {x b : Int} (h : x ∈ FaceIndices b) :
    ∃ k : Nat, k < 4 ∧ x = toInt16 (b + k) := by
  simp only [FaceIndices, List.mem_cons, List.mem_singleton, List.not_mem_nil, or_false] at h
  rcases h with h | h | h | h | h | h
  · exact ⟨0, by omega, by simpa using h⟩
  · exact ⟨1, by omega, by simpa using h⟩
  · exact ⟨2, by omega, by simpa using h⟩
  · exact ⟨0, by omega, by simpa using h⟩
  · exact ⟨2, by omega, by simpa using h⟩
  · exact ⟨3, by omega, by simpa using h⟩

theorem length_BatchOf_dvd (Grid : UBrickGridComponent) (fs : List (FInt3 × Nat)) (n m d : Nat) :
    6 ∣ (BatchOf Grid fs n m d).length := by
  induction fs generalizing n with
  | nil => simp [BatchOf]
  | cons f fs ih =>
    unfold BatchOf
    rw [List.length_append]
    apply Dvd.dvd.add _ (ih (n + 4))
    split
    · rw [length_FaceIndices]
    · simp

theorem BatchOf_ne_nil_iff (Grid : UBrickGridComponent) (fs : List (FInt3 × Nat)) (n m d : Nat) :
    BatchOf Grid fs n m d ≠ [] ↔ ∃ f ∈ fs, Grid.GetBrick f.1 = m ∧ f.2 = d := by
  induction fs generalizing n with
  | nil => simp [BatchOf]
  | cons f fs ih =>
    unfold BatchOf
    by_cases h : m = Grid.GetBrick f.1 ∧ d = f.2
    · simp only [h, and_self, if_true]
      constructor
      · intro _
        exact ⟨f, List.mem_cons_self _ _, rfl, rfl⟩
      · intro _
        simp [FaceIndices]
    · simp only [h, if_false, List.nil_append, ih, List.mem_cons]
      constructor
      · rintro ⟨g, hg, h1, h2⟩
        exact ⟨g, Or.inr hg, h1, h2⟩
      · rintro ⟨g, hg | hg, h1, h2⟩
        · subst hg
          exact absurd ⟨h1.symm, h2.symm⟩ h
        · exact ⟨g, hg, h1, h2⟩

/-- Every index of the batch `(m, d)` points into the quad of a face with material `m`
and direction `d`. -/
theorem mem_BatchOf (Grid : UBrickGridComponent) (fs : List (FInt3 × Nat)) (n m d : Nat)
    (x : Int) (h : x ∈ BatchOf Grid fs n m d) :
    ∃ q k : Nat, ∃ f : FInt3 × Nat, k < 4 ∧ x = toInt16 ((n + 4 * q + k : Nat) : Int) ∧
      fs[q]? = some f ∧ Grid.GetBrick f.1 = m ∧ f.2 = d := by
  induction fs generalizing n with
  | nil => simp [BatchOf] at h
  | cons f fs ih =>
    unfold BatchOf at h
    rw [List.mem_append] at h
    rcases h with h | h
    · split at h
      · rename_i hmd
        obtain ⟨k, hk, hx⟩ := mem_FaceIndices h
        refine ⟨0, k, f, hk, ?_, by simp, hmd.1.symm, hmd.2.symm⟩
        rw [hx]
        congr 1
      · simp at h
    · obtain ⟨q, k, g, hk, hx, hq, hm, hd⟩ := ih (n + 4) h
      refine ⟨q + 1, k, g, hk, ?_, by simpa using hq, hm, hd⟩
      rw [hx]
      congr 1
      push_cast
      ring

/-! ## Properties of the element list -/

/-- The order of the element loops: material ascending, then face index ascending. -/
theorem mem_BatchPairs (N m d : Nat) : (m, d) ∈ BatchPairs N ↔ m < N ∧ d < 6 := by
  unfold BatchPairs
  simp only [List.mem_flatMap, List.mem_map, List.mem_range, Prod.mk.injEq]
  constructor
  · rintro ⟨m', hm, d', hd, rfl, rfl⟩
    exact ⟨hm, hd⟩
  · rintro ⟨hm, hd⟩
    exact ⟨m, hm, d, hd, rfl, rfl⟩

theorem pairwise_BatchPairs (N : Nat) :
    (BatchPairs N).Pairwise (fun p q => p.1 < q.1 ∨ (p.1 = q.1 ∧ p.2 < q.2)) := by
  unfold BatchPairs
  rw [List.pairwise_flatMap]
  constructor
  · intro m _
    rw [List.pairwise_map]
    exact (List.pairwise_lt_range 6).imp (fun h => Or.inr ⟨rfl, h⟩)
  · refine (List.pairwise_lt_range N).imp ?_
    intro a b hab x hx y hy
    rw [List.mem_map] at hx hy
    obtain ⟨_, _, rfl⟩ := hx
    obtain ⟨_, _, rfl⟩ := hy
    exact Or.inl hab

theorem nodup_BatchPairs (N : Nat) : (BatchPairs N).Nodup := by
  refine (pairwise_BatchPairs N).imp ?_
  intro p q h heq
  subst heq
  omega

theorem ElementsFrom_keys (MB : Nat → Nat → List Int) (n : Nat) (ps : List (Nat × Nat)) :
    (ElementsFrom MB n ps).map (fun E => (E.MaterialIndex, E.FaceIndex)) =
      ps.filter (fun p => decide (0 < (MB p.1 p.2).length)) := by
  induction ps generalizing n with
  | nil => rfl
  | cons p ps ih =>
    unfold ElementsFrom
    by_cases h : (MB p.1 p.2).length > 0
    · simp only [h, if_true, List.map_cons, ih]
      rw [List.filter_cons_of_pos (by simpa using h)]
    · simp only [h, if_false, ih]
      rw [List.filter_cons_of_neg (by simpa using h)]

theorem mem_ElementsFrom (MB : Nat → Nat → List Int) (n : Nat) (ps : List (Nat × Nat))
    (E : FElement) (h : E ∈ ElementsFrom MB n ps) :
    ∃ pre post, ps = pre ++ (E.MaterialIndex, E.FaceIndex) :: post ∧
      E.FirstIndex = n + (pre.flatMap (fun p => MB p.1 p.2)).length ∧
      E.NumPrimitives = (MB E.MaterialIndex E.FaceIndex).length / 3 ∧
      0 < (MB E.MaterialIndex E.FaceIndex).length := by
  induction ps generalizing n with
  | nil => simp [ElementsFrom] at h
  | cons p ps ih =>
    unfold ElementsFrom at h
    by_cases hp : (MB p.1 p.2).length > 0
    · simp only [hp, if_true, List.mem_cons] at h
      rcases h with h | h
      · subst h
        exact ⟨[], ps, rfl, by simp, rfl, hp⟩
      · obtain ⟨pre, post, h1, h2, h3, h4⟩ := ih _ h
        refine ⟨p :: pre, post, by rw [h1]; rfl, ?_, h3, h4⟩
        rw [h2, List.flatMap_cons, List.length_append]
        omega
    · simp only [hp, if_false] at h
      obtain ⟨pre, post, h1, h2, h3, h4⟩ := ih _ h
      refine ⟨p :: pre, post, by rw [h1]; rfl, ?_, h3, h4⟩
      rw [h2, List.flatMap_cons, List.length_append]
      omega

theorem Tiles_ElementsFrom (MB : Nat → Nat → List Int) (n : Nat) (ps : List (Nat × Nat))
    (h3 : ∀ p ∈ ps, 3 ∣ (MB p.1 p.2).length) :
    Tiles n (ElementsFrom MB n ps) (n + (ps.flatMap (fun p => MB p.1 p.2)).length) := by
  induction ps generalizing n with
  | nil => simp [ElementsFrom, Tiles]
  | cons p ps ih =>
    have ih' := fun k => ih k (fun q hq => h3 q (List.mem_cons_of_mem _ hq))
    unfold ElementsFrom
    rw [List.flatMap_cons, List.length_append]
    by_cases hp : (MB p.1 p.2).length > 0
    · simp only [hp, if_true, Tiles, true_and]
      have hd := h3 p (List.mem_cons_self _ _)
      rw [Nat.mul_div_cancel' hd, ← Nat.add_assoc]
      exact ih' _
    · simp only [hp, if_false]
      have h0 : (MB p.1 p.2).length = 0 := by omega
      rw [h0, Nat.zero_add]
      exact ih' _

theorem Tiles_le {s e : Nat} {Es : List FElement} (h : Tiles s Es e) :
    s ≤ e ∧ ∀ E ∈ Es, s ≤ E.FirstIndex ∧ E.FirstIndex + 3 * E.NumPrimitives ≤ e := by
  induction Es generalizing s with
  | nil =>
    simp only [Tiles] at h
    simp [h]
  | cons E Es ih =>
    obtain ⟨h1, h2⟩ := h
    obtain ⟨h3, h4⟩ := ih h2
    refine ⟨by omega, ?_⟩
    intro E' hE'
    rcases List.mem_cons.1 hE' with rfl | hE'
    · omega
    · have := h4 E' hE'
      omega

theorem Tiles_head {s e : Nat} {Es : List FElement} (h : Tiles s Es e) (E : FElement)
    (hE : Es.head? = some E) : E.FirstIndex = s := by
  cases Es with
  | nil => simp at hE
  | cons E' Es =>
    simp only [List.head?_cons, Option.some.injEq] at hE
    subst hE
    exact h.1

theorem Tiles_next {s e : Nat} {Es : List FElement} (h : Tiles s Es e) (i : Nat)
    (E E' : FElement) (hE : Es[i]? = some E) (hE' : Es[i + 1]? = some E') :
    E'.FirstIndex = E.FirstIndex + 3 * E.NumPrimitives := by
  induction Es generalizing s i with
  | nil => simp at hE
  | cons E0 Es ih =>
    obtain ⟨_, h2⟩ := h
    cases i with
    | zero =>
      simp only [List.getElem?_cons_zero, Option.some.injEq] at hE
      subst hE
      rw [List.getElem?_cons_succ] at hE'
      exact Tiles_head h2 E' (by rw [← hE', List.head?_eq_getElem?])
    | succ i =>
      rw [List.getElem?_cons_succ] at hE hE'
      exact ih h2 i hE hE'

theorem Tiles_last {s e : Nat} {Es : List FElement} (h : Tiles s Es e) (E : FElement)
    (hE : Es.getLast? = some E) : E.FirstIndex + 3 * E.NumPrimitives = e := by
  induction Es generalizing s with
  | nil => simp at hE
  | cons E0 Es ih =>
    obtain ⟨_, h2⟩ := h
    cases Es with
    | nil =>
      simp only [List.getLast?_singleton, Option.some.injEq] at hE
      subst hE
      exact h2
    | cons E1 Es =>
      rw [List.getLast?_cons_cons] at hE
      exact ih h2 hE

theorem Tiles_disjoint {s e : Nat} {Es : List FElement} (h : Tiles s Es e) (i j : Nat)
    (E E' : FElement) (hij : i < j) (hE : Es[i]? = some E) (hE' : Es[j]? = some E') :
    E.FirstIndex + 3 * E.NumPrimitives ≤ E'.FirstIndex := by
  induction Es generalizing s i j with
  | nil => simp at hE
  | cons E0 Es ih =>
    obtain ⟨_, h2⟩ := h
    cases j with
    | zero => omega
    | succ j =>
      rw [List.getElem?_cons_succ] at hE'
      cases i with
      | zero =>
        simp only [List.getElem?_cons_zero, Option.some.injEq] at hE
        subst hE
        exact ((Tiles_le h2).2 E' (List.mem_iff_getElem?.2 ⟨_, hE'⟩)).1
      | succ i =>
        rw [List.getElem?_cons_succ] at hE
        exact ih h2 i j (by omega) hE hE'

theorem Tiles_cover {s e : Nat} {Es : List FElement} (h : Tiles s Es e) (p : Nat)
    (hs : s ≤ p) (he : p < e) :
    ∃ E ∈ Es, E.FirstIndex ≤ p ∧ p < E.FirstIndex + 3 * E.NumPrimitives := by
  induction Es generalizing s with
  | nil =>
    simp only [Tiles] at h
    omega
  | cons E0 Es ih =>
    obtain ⟨h1, h2⟩ := h
    by_cases hp : p < E0.FirstIndex + 3 * E0.NumPrimitives
    · exact ⟨E0, List.mem_cons_self _ _, by omega, hp⟩
    · obtain ⟨E, hE, h3⟩ := ih h2 (by omega)
      exact ⟨E, List.mem_cons_of_mem _ hE, h3⟩

/-! ## The face tables, entry by entry -/

theorem FInt3.add_X (a b : FInt3) : (a + b).X = a.X + b.X := rfl

theorem FInt3.add_Y (a b : FInt3) : (a + b).Y = a.Y + b.Y := rfl

theorem FInt3.add_Z (a b : FInt3) : (a + b).Z = a.Z + b.Z := rfl

theorem FInt3.sub_X (a b : FInt3) : (a - b).X = a.X - b.X := rfl

theorem FInt3.sub_Y (a b : FInt3) : (a - b).Y = a.Y - b.Y := rfl

theorem FInt3.sub_Z (a b : FInt3) : (a - b).Z = a.Z - b.Z := rfl

theorem FInt3.ext_iff3 (a b : FInt3) : a = b ↔ a.X = b.X ∧ a.Y = b.Y ∧ a.Z = b.Z := by
  cases a
  cases b
  simp

/-- The corner offsets of the four slots of each face, read off the two tables. -/
theorem corner_offsets :
    (List.range 6).map (fun D => (List.range 4).map
      (fun k => GetCornerVertexOffset (FaceVertices D k))) =
    [ [⟨0, 1, 0⟩, ⟨0, 1, 1⟩, ⟨0, 0, 1⟩, ⟨0, 0, 0⟩],
      [⟨1, 0, 0⟩, ⟨1, 0, 1⟩, ⟨1, 1, 1⟩, ⟨1, 1, 0⟩],
      [⟨0, 0, 0⟩, ⟨0, 0, 1⟩, ⟨1, 0, 1⟩, ⟨1, 0, 0⟩],
      [⟨1, 1, 0⟩, ⟨1, 1, 1⟩, ⟨0, 1, 1⟩, ⟨0, 1, 0⟩],
      [⟨1, 0, 0⟩, ⟨1, 1, 0⟩, ⟨0, 1, 0⟩, ⟨0, 0, 0⟩],
      [⟨0, 0, 1⟩, ⟨0, 1, 1⟩, ⟨1, 1, 1⟩, ⟨1, 0, 1⟩] ] := by
  decide

/-- Every corner offset has components 0 or 1. -/
theorem corner_offset_range (D k : Nat) (hD : D < 6) (hk : k < 4) :
    (0 ≤ (GetCornerVertexOffset (FaceVertices D k)).X ∧
      (GetCornerVertexOffset (FaceVertices D k)).X ≤ 1) ∧
    (0 ≤ (GetCornerVertexOffset (FaceVertices D k)).Y ∧
      (GetCornerVertexOffset (FaceVertices D k)).Y ≤ 1) ∧
    (0 ≤ (GetCornerVertexOffset (FaceVertices D k)).Z ∧
      (GetCornerVertexOffset (FaceVertices D k)).Z ≤ 1) := by
  have h : ∀ D, D < 6 → ∀ k, k < 4 →
      (0 ≤ (GetCornerVertexOffset (FaceVertices D k)).X ∧
        (GetCornerVertexOffset (FaceVertices D k)).X ≤ 1) ∧
      (0 ≤ (GetCornerVertexOffset (FaceVertices D k)).Y ∧
        (GetCornerVertexOffset (FaceVertices D k)).Y ≤ 1) ∧
      (0 ≤ (GetCornerVertexOffset (FaceVertices D k)).Z ∧
        (GetCornerVertexOffset (FaceVertices D k)).Z ≤ 1) := by
    decide
  exact h D hD k hk

/-- Without wrap-around the stored vertex is the corner position itself. -/
theorem FaceVertex_eq_CornerPosition (Min B : FInt3) (D k : Nat) (hD : D < 6) (hk : k < 4)
    (hX : 0 ≤ B.X - Min.X ∧ B.X - Min.X ≤ 254) (hY : 0 ≤ B.Y - Min.Y ∧ B.Y - Min.Y ≤ 254)
    (hZ : 0 ≤ B.Z - Min.Z ∧ B.Z - Min.Z ≤ 254) :
    FaceVertex Min B D k = CornerPosition Min B D k := by
  obtain ⟨h1, h2, h3⟩ := corner_offset_range D k hD hk
  simp only [FaceVertex, CornerPosition, toUInt8, FInt3.add_X, FInt3.add_Y, FInt3.add_Z,
    FInt3.sub_X, FInt3.sub_Y, FInt3.sub_Z, FBrickVertex.mk.injEq]
  refine ⟨?_, ?_, ?_⟩ <;> omega

/-- A corner position, as an integer vector. -/
theorem CornerPosition_toFInt3 (Min B : FInt3) (D k : Nat) (hD : D < 6) (hk : k < 4)
    (hX : 0 ≤ B.X - Min.X) (hY : 0 ≤ B.Y - Min.Y) (hZ : 0 ≤ B.Z - Min.Z) :
    (CornerPosition Min B D k).toFInt3 =
      (B - Min) + GetCornerVertexOffset (FaceVertices D k) := by
  obtain ⟨h1, h2, h3⟩ := corner_offset_range D k hD hk
  rw [FInt3.ext_iff3]
  simp only [CornerPosition, FBrickVertex.toFInt3, FInt3.add_X, FInt3.add_Y, FInt3.add_Z,
    FInt3.sub_X, FInt3.sub_Y, FInt3.sub_Z]
  refine ⟨?_, ?_, ?_⟩ <;> omega

/-- Without wrap-around the four stored vertices of a face determine the brick and the
direction of the face. -/
theorem face_of_quad (Min B B' : FInt3) (D D' : Nat) (hD : D < 6) (hD' : D' < 6)
    (hX : 0 ≤ B.X - Min.X ∧ B.X - Min.X ≤ 254) (hY : 0 ≤ B.Y - Min.Y ∧ B.Y - Min.Y ≤ 254)
    (hZ : 0 ≤ B.Z - Min.Z ∧ B.Z - Min.Z ≤ 254)
    (hX' : 0 ≤ B'.X - Min.X ∧ B'.X - Min.X ≤ 254) (hY' : 0 ≤ B'.Y - Min.Y ∧ B'.Y - Min.Y ≤ 254)
    (hZ' : 0 ≤ B'.Z - Min.Z ∧ B'.Z - Min.Z ≤ 254)
    (h : ∀ k, k < 4 → FaceVertex Min B' D' k = CornerPosition Min B D k) :
    B' = B ∧ D' = D := by
  have hv : ∀ k, k < 4 →
      ((B' - Min) + GetCornerVertexOffset (FaceVertices D' k)).X =
        ((B - Min) + GetCornerVertexOffset (FaceVertices D k)).X ∧
      ((B' - Min) + GetCornerVertexOffset (FaceVertices D' k)).Y =
        ((B - Min) + GetCornerVertexOffset (FaceVertices D k)).Y ∧
      ((B' - Min) + GetCornerVertexOffset (FaceVertices D' k)).Z =
        ((B - Min) + GetCornerVertexOffset (FaceVertices D k)).Z := by
    intro k hk
    have e := h k hk
    rw [FaceVertex_eq_CornerPosition Min B' D' k hD' hk hX' hY' hZ'] at e
    have e' := congrArg FBrickVertex.toFInt3 e
    rw [CornerPosition_toFInt3 Min B' D' k hD' hk hX'.1 hY'.1 hZ'.1,
      CornerPosition_toFInt3 Min B D k hD hk hX.1 hY.1 hZ.1] at e'
    exact (FInt3.ext_iff3 _ _).1 e'
  have e0 := hv 0 (by omega)
  have e1 := hv 1 (by omega)
  have e2 := hv 2 (by omega)
  have e3 := hv 3 (by omega)
  have hc := corner_offsets
  simp only [List.range, List.range.loop, List.map_cons, List.map_nil, List.cons.injEq,
    and_true] at hc
  obtain ⟨⟨a0, a1, a2, a3⟩, ⟨b0, b1, b2, b3⟩, ⟨c0, c1, c2, c3⟩, ⟨d0, d1, d2, d3⟩,
    ⟨f0, f1, f2, f3⟩, ⟨g0, g1, g2, g3⟩⟩ := hc
  rw [FInt3.ext_iff3]
  simp only [FInt3.add_X, FInt3.add_Y, FInt3.add_Z, FInt3.sub_X, FInt3.sub_Y, FInt3.sub_Z]
    at e0 e1 e2 e3
  interval_cases D <;> interval_cases D' <;>
    simp only [a0, a1, a2, a3, b0, b1, b2, b3, c0, c1, c2, c3, d0, d1, d2, d3,
      f0, f1, f2, f3, g0, g1, g2, g3] at e0 e1 e2 e3 <;>
    omega

/-- The bricks visited by the traversal have relative coordinates from 0 to the chunk
size. -/
theorem chunk_brick_bounds (Component : UBrickRenderComponent) (B : FInt3)
    (hsize : Component.Grid.BricksPerRenderChunk.X + 1 ≤ 255 ∧
      Component.Grid.BricksPerRenderChunk.Y + 1 ≤ 255 ∧
      Component.Grid.BricksPerRenderChunk.Z + 1 ≤ 255)
    (hB : B ∈ TraversalBricks Component) :
    (0 ≤ B.X - (MinBrickCoordinates Component).X ∧
      B.X - (MinBrickCoordinates Component).X ≤ 254) ∧
    (0 ≤ B.Y - (MinBrickCoordinates Component).Y ∧
      B.Y - (MinBrickCoordinates Component).Y ≤ 254) ∧
    (0 ≤ B.Z - (MinBrickCoordinates Component).Z ∧
      B.Z - (MinBrickCoordinates Component).Z ≤ 254) := by
  rw [mem_TraversalBricks] at hB
  obtain ⟨⟨h1, h2, h3⟩, h4, h5, h6⟩ := hB
  simp only [MaxBrickCoordinatesPlus1, FInt3.add_X, FInt3.add_Y, FInt3.add_Z, FInt3.Scalar]
    at h4 h5 h6
  omega

/-! ## Runs of the index buffer -/

/-- The run of an element is the batch of its material and face direction. -/
theorem ElementRun_eq {Component : UBrickRenderComponent} {r : FBrickChunkSceneProxy}
    (h : FBrickChunkSceneProxy.ctor Component = some r) (E : FElement) (hE : E ∈ r.Elements) :
    ElementRun r E =
      BatchOf Component.Grid (EmittedFaces Component) 0 E.MaterialIndex E.FaceIndex := by
  obtain ⟨_, _, hI, hEl⟩ := ctor_some h
  rw [hEl] at hE
  obtain ⟨pre, post, hps, hfirst, hnum, _⟩ := mem_ElementsFrom _ _ _ _ hE
  have hd := length_BatchOf_dvd Component.Grid (EmittedFaces Component) 0
    E.MaterialIndex E.FaceIndex
  have hlen : 3 * E.NumPrimitives =
      (BatchOf Component.Grid (EmittedFaces Component) 0 E.MaterialIndex E.FaceIndex).length := by
    rw [hnum]
    omega
  unfold ElementRun
  rw [hI, hps, List.flatMap_append, List.flatMap_cons, hfirst, Nat.zero_add, List.drop_left,
    hlen, List.take_left]

theorem quadOf_toInt16 (q k : Nat) (hk : k < 4) (h : 4 * q + k < 65536) :
    quadOf (toInt16 ((0 + 4 * q + k : Nat) : Int)) = q := by
  unfold quadOf toInt16
  omega

theorem mem_BatchOf_of_face (Grid : UBrickGridComponent) (fs : List (FInt3 × Nat))
    (n q k : Nat) (f : FInt3 × Nat) (hf : fs[q]? = some f) (hk : k < 4) :
    toInt16 ((n + 4 * q + k : Nat) : Int) ∈ BatchOf Grid fs n (Grid.GetBrick f.1) f.2 := by
  induction fs generalizing n q with
  | nil => simp at hf
  | cons g fs ih =>
    unfold BatchOf
    rw [List.mem_append]
    cases q with
    | zero =>
      simp only [List.getElem?_cons_zero, Option.some.injEq] at hf
      subst hf
      left
      simp only [and_self, if_true, FaceIndices, Nat.mul_zero, Nat.add_zero]
      interval_cases k <;> simp
    | succ q =>
      rw [List.getElem?_cons_succ] at hf
      right
      have := ih (n + 4) q hf
      have e : n + 4 + 4 * q + k = n + 4 * (q + 1) + k := by ring
      rw [e] at this
      exact this

/-- Every stored index is the `int16` image of some vertex position `4 * q + k` of an
emitted face `q`. -/
theorem mem_Indices {Component : UBrickRenderComponent} {r : FBrickChunkSceneProxy}
    (h : FBrickChunkSceneProxy.ctor Component = some r) (idx : Int) (hidx : idx ∈ r.Indices) :
    ∃ q k : Nat, k < 4 ∧ 4 * q + k < r.Vertices.length ∧
      idx = toInt16 ((4 * q + k : Nat) : Int) := by
  obtain ⟨_, hV, hI, _⟩ := ctor_some h
  rw [hI, List.mem_flatMap] at hidx
  obtain ⟨p, _, hp⟩ := hidx
  obtain ⟨q, k, f, hk, hx, hq, _, _⟩ := mem_BatchOf _ _ _ _ _ _ hp
  have hqlt : q < (EmittedFaces Component).length := by
    rw [List.getElem?_eq_some] at hq
    exact hq.1
  refine ⟨q, k, hk, ?_, ?_⟩
  · rw [hV, length_flatMap_QuadVertices]
    omega
  · rw [hx, Nat.zero_add]

/-- Every vertex position of an emitted face is stored, as an `int16`, in the index
buffer. -/
theorem toInt16_mem_Indices {Component : UBrickRenderComponent} {r : FBrickChunkSceneProxy}
    (h : FBrickChunkSceneProxy.ctor Component = some r) (q k : Nat) (hk : k < 4)
    (hq : 4 * q + k < r.Vertices.length) :
    toInt16 ((4 * q + k : Nat) : Int) ∈ r.Indices := by
  obtain ⟨hval, hV, hI, _⟩ := ctor_some h
  rw [hV, length_flatMap_QuadVertices] at hq
  have hqlt : q < (EmittedFaces Component).length := by omega
  have hf : (EmittedFaces Component)[q]? = some ((EmittedFaces Component)[q]) :=
    List.getElem?_eq_getElem hqlt
  have hmem : (EmittedFaces Component)[q] ∈ EmittedFaces Component :=
    List.getElem_mem hqlt
  have hmem' : (((EmittedFaces Component)[q]).1, ((EmittedFaces Component)[q]).2) ∈
      EmittedFaces Component := hmem
  rw [mem_EmittedFaces] at hmem'
  rw [hI, List.mem_flatMap]
  refine ⟨(Component.Grid.GetBrick ((EmittedFaces Component)[q]).1,
    ((EmittedFaces Component)[q]).2), ?_, ?_⟩
  · rw [mem_BatchPairs]
    exact ⟨hval _ hmem, hmem'.2.1⟩
  · have := mem_BatchOf_of_face Component.Grid (EmittedFaces Component) 0 q k _ hf hk
    rw [Nat.zero_add] at this
    exact this

set_option maxRecDepth 1000000 in
/-- The number of emitted faces of the checkerboard chunk, by evaluation. -/
theorem length_EmittedFaces_checkerChunk : (EmittedFaces checkerChunk).length = 14742 := by
  decide!

/-! ## The index buffer as a list of quads -/

theorem BatchOf_eq_flatMap_BasesOf (Grid : UBrickGridComponent) (fs : List (FInt3 × Nat))
    (n m d : Nat) :
    BatchOf Grid fs n m d = (BasesOf Grid fs n m d).flatMap (fun b => FaceIndices (b : Int)) := by
  induction fs generalizing n with
  | nil => rfl
  | cons f fs ih =>
    unfold BatchOf BasesOf
    rw [List.flatMap_append, ih]
    congr 1
    split <;> simp

theorem mem_BasesOf (Grid : UBrickGridComponent) (fs : List (FInt3 × Nat)) (n m d b : Nat)
    (h : b ∈ BasesOf Grid fs n m d) : n ≤ b ∧ b + 4 ≤ n + 4 * fs.length := by
  induction fs generalizing n with
  | nil => simp [BasesOf] at h
  | cons f fs ih =>
    unfold BasesOf at h
    rw [List.mem_append] at h
    rw [List.length_cons]
    rcases h with h | h
    · split at h
      · simp only [List.mem_singleton] at h
        omega
      · simp at h
    · have := ih (n + 4) h
      omega

/-- Writing the batches one after the other lists every face exactly once. -/
theorem perm_flatMap_BasesOf (Grid : UBrickGridComponent) (ps : List (Nat × Nat))
    (hps : ps.Nodup) (fs : List (FInt3 × Nat)) (n : Nat)
    (hkeys : ∀ f ∈ fs, (Grid.GetBrick f.1, f.2) ∈ ps) :
    (ps.flatMap (fun p => BasesOf Grid fs n p.1 p.2)).Perm
      ((List.range fs.length).map (fun q => n + 4 * q)) := by
  induction fs generalizing n with
  | nil => simp [BasesOf]
  | cons f fs ih =>
    have hf := hkeys f (List.mem_cons_self _ _)
    have hrest := ih (n + 4) (fun g hg => hkeys g (List.mem_cons_of_mem _ hg))
    have hsplit : (ps.flatMap (fun p => BasesOf Grid (f :: fs) n p.1 p.2)) =
        ps.flatMap (fun p => (if p.1 = Grid.GetBrick f.1 ∧ p.2 = f.2 then [n] else []) ++
          BasesOf Grid fs (n + 4) p.1 p.2) := rfl
    rw [hsplit]
    refine (List.flatMap_append_perm ps _ _).symm.trans ?_
    have hone : ps.flatMap (fun p => if p.1 = Grid.GetBrick f.1 ∧ p.2 = f.2 then [n] else []) =
        [n] := by
      rw [flatMap_eq_of_single ps _ (Grid.GetBrick f.1, f.2) hps hf]
      · simp
      · intro p _ hne
        rw [if_neg]
        rintro ⟨h1, h2⟩
        exact hne (Prod.ext h1 h2)
    rw [hone, List.length_cons, List.range_succ_eq_map, List.map_cons, List.map_map]
    simp only [Nat.mul_zero, Nat.add_zero, List.singleton_append]
    refine List.Perm.cons n ?_
    have hfun : ((fun q => n + 4 * q) ∘ Nat.succ) = (fun q => n + 4 + 4 * q) := by
      funext q
      simp only [Function.comp, Nat.succ_eq_add_one]
      ring
    rw [hfun]
    exact hrest

theorem FaceIndices_eq_QuadGroup (b : Nat) (h : b + 3 < 32768) :
    FaceIndices (b : Int) = QuadGroup b := by
  simp only [FaceIndices, QuadGroup, toInt16, List.cons.injEq, and_true]
  refine ⟨?_, ?_, ?_, ?_, ?_, ?_⟩ <;> omega

theorem FaceIndices_mod_eq_QuadGroup (b : Nat) (h : b + 3 < 65536) :
    (FaceIndices (b : Int)).map (fun i => i % 65536) = QuadGroup b := by
  simp only [FaceIndices, QuadGroup, toInt16, List.map_cons, List.map_nil, List.cons.injEq,
    and_true]
  refine ⟨?_, ?_, ?_, ?_, ?_, ?_⟩ <;> omega

/-- The bases of all batches, in the order of the index buffer. -/
theorem Indices_eq_flatMap_bases {Component : UBrickRenderComponent}
    {r : FBrickChunkSceneProxy} (h : FBrickChunkSceneProxy.ctor Component = some r) :
    r.Indices = ((BatchPairs Component.Grid.NumMaterials).flatMap
      (fun p => BasesOf Component.Grid (EmittedFaces Component) 0 p.1 p.2)).flatMap
        (fun b => FaceIndices (b : Int)) ∧
    ((BatchPairs Component.Grid.NumMaterials).flatMap
      (fun p => BasesOf Component.Grid (EmittedFaces Component) 0 p.1 p.2)).Perm
        ((List.range (EmittedFaces Component).length).map (fun q => 4 * q)) := by
  obtain ⟨hval, _, hI, _⟩ := ctor_some h
  constructor
  · rw [hI, List.flatMap_assoc]
    congr 1
    funext p
    exact BatchOf_eq_flatMap_BasesOf _ _ _ _ _
  · have hp := perm_flatMap_BasesOf Component.Grid (BatchPairs Component.Grid.NumMaterials)
      (nodup_BatchPairs _) (EmittedFaces Component) 0 (by
        intro f hf
        rw [mem_BatchPairs]
        have hf' : (f.1, f.2) ∈ EmittedFaces Component := hf
        rw [mem_EmittedFaces] at hf'
        exact ⟨hval f hf, hf'.2.1⟩)
    simpa using hp

theorem length_flatMap_FaceIndices (bs : List Nat) :
    (bs.flatMap (fun b => FaceIndices (b : Int))).length = 6 * bs.length := by
  induction bs with
  | nil => rfl
  | cons b bs ih =>
    rw [List.flatMap_cons, List.length_append, ih, length_FaceIndices, List.length_cons]
    omega

/-- The constructor writes four vertices and six indices for each emitted face. -/
theorem length_Vertices_Indices {Component : UBrickRenderComponent}
    {r : FBrickChunkSceneProxy} (h : FBrickChunkSceneProxy.ctor Component = some r) :
    r.Vertices.length = 4 * (EmittedFaces Component).length ∧
    r.Indices.length = 6 * (EmittedFaces Component).length := by
  obtain ⟨_, hV, _, _⟩ := ctor_some h
  obtain ⟨hI, hperm⟩ := Indices_eq_flatMap_bases h
  constructor
  · rw [hV, length_flatMap_QuadVertices]
  · rw [hI, length_flatMap_FaceIndices, hperm.length_eq, List.length_map, List.length_range]

/-! ## First and last index of a batch -/

/-- The index buffer around the run of an element. -/
theorem Indices_around_run {Component : UBrickRenderComponent} {r : FBrickChunkSceneProxy}
    (h : FBrickChunkSceneProxy.ctor Component = some r) (E : FElement) (hE : E ∈ r.Elements) :
    ∃ pre post : List Int,
      r.Indices = pre ++ BatchOf Component.Grid (EmittedFaces Component) 0
        E.MaterialIndex E.FaceIndex ++ post ∧
      E.FirstIndex = pre.length ∧
      3 * E.NumPrimitives = (BatchOf Component.Grid (EmittedFaces Component) 0
        E.MaterialIndex E.FaceIndex).length ∧
      BatchOf Component.Grid (EmittedFaces Component) 0 E.MaterialIndex E.FaceIndex ≠ [] := by
  obtain ⟨_, _, hI, hEl⟩ := ctor_some h
  rw [hEl] at hE
  obtain ⟨pre, post, hps, hfirst, hnum, hpos⟩ := mem_ElementsFrom _ _ _ _ hE
  have hd := length_BatchOf_dvd Component.Grid (EmittedFaces Component) 0
    E.MaterialIndex E.FaceIndex
  refine ⟨pre.flatMap (fun p => BatchOf Component.Grid (EmittedFaces Component) 0 p.1 p.2),
    post.flatMap (fun p => BatchOf Component.Grid (EmittedFaces Component) 0 p.1 p.2),
    ?_, ?_, ?_, ?_⟩
  · rw [hI, hps, List.flatMap_append, List.flatMap_cons, List.append_assoc]
  · rw [hfirst, Nat.zero_add]
  · rw [hnum]
    omega
  · exact List.ne_nil_of_length_pos hpos

/-- The first index of a non-empty batch is the base of one of its faces and no index of
the batch is smaller. -/
theorem head_BatchOf (Grid : UBrickGridComponent) (fs : List (FInt3 × Nat)) (n m d : Nat)
    (hne : BatchOf Grid fs n m d ≠ []) :
    ∃ b : Nat, b + 4 ≤ n + 4 * fs.length ∧
      (BatchOf Grid fs n m d).head? = some (toInt16 (b : Int)) ∧
      ∀ x ∈ BatchOf Grid fs n m d,
        ∃ v : Nat, x = toInt16 (v : Int) ∧ b ≤ v ∧ v < n + 4 * fs.length := by
  induction fs generalizing n with
  | nil => exact absurd rfl hne
  | cons f fs ih =>
    have hall : ∀ x ∈ BatchOf Grid (f :: fs) n m d,
        ∃ v : Nat, x = toInt16 (v : Int) ∧ n ≤ v ∧ v < n + 4 * (f :: fs).length := by
      intro x hx
      obtain ⟨q, k, g, hk, hxe, hq, _, _⟩ := mem_BatchOf _ _ _ _ _ _ hx
      have hqlt : q < (f :: fs).length := by
        rw [List.getElem?_eq_some] at hq
        exact hq.1
      exact ⟨n + 4 * q + k, hxe, by omega, by omega⟩
    by_cases hmd : m = Grid.GetBrick f.1 ∧ d = f.2
    · refine ⟨n, by rw [List.length_cons]; omega, ?_, hall⟩
      unfold BatchOf
      rw [if_pos hmd]
      simp [FaceIndices]
    · have heq : BatchOf Grid (f :: fs) n m d = BatchOf Grid fs (n + 4) m d := by
        conv_lhs => unfold BatchOf
        rw [if_neg hmd, List.nil_append]
      rw [heq] at hne ⊢
      obtain ⟨b, hb1, hb2, hb3⟩ := ih (n + 4) hne
      refine ⟨b, by rw [List.length_cons]; omega, hb2, ?_⟩
      intro x hx
      obtain ⟨v, hv1, hv2, hv3⟩ := hb3 x hx
      exact ⟨v, hv1, hv2, by rw [List.length_cons]; omega⟩

/-- The last index of a non-empty batch is the base of one of its faces plus three and no
index of the batch is larger. -/
theorem getLast_BatchOf (Grid : UBrickGridComponent) (fs : List (FInt3 × Nat)) (n m d : Nat)
    (hne : BatchOf Grid fs n m d ≠ []) :
    ∃ b : Nat, n ≤ b ∧ b + 4 ≤ n + 4 * fs.length ∧
      (BatchOf Grid fs n m d).getLast? = some (toInt16 ((b + 3 : Nat) : Int)) ∧
      ∀ x ∈ BatchOf Grid fs n m d, ∃ v : Nat, x = toInt16 (v : Int) ∧ v ≤ b + 3 := by
  induction fs generalizing n with
  | nil => exact absurd rfl hne
  | cons f fs ih =>
    have hA : ∀ x ∈ (if m = Grid.GetBrick f.1 ∧ d = f.2 then FaceIndices (n : Int) else []),
        ∃ v : Nat, x = toInt16 (v : Int) ∧ v ≤ n + 3 := by
      intro x hx
      split at hx
      · obtain ⟨k, hk, hxe⟩ := mem_FaceIndices hx
        exact ⟨n + k, by rw [hxe]; congr 1, by omega⟩
      · simp at hx
    by_cases hT : BatchOf Grid fs (n + 4) m d = []
    · have hmd : m = Grid.GetBrick f.1 ∧ d = f.2 := by
        by_contra hmd
        apply hne
        unfold BatchOf
        rw [if_neg hmd, hT]
        rfl
      refine ⟨n, Nat.le_refl _, by rw [List.length_cons]; omega, ?_, ?_⟩
      · unfold BatchOf
        rw [if_pos hmd, hT, List.append_nil]
        simp [FaceIndices]
      · intro x hx
        unfold BatchOf at hx
        rw [hT, List.append_nil] at hx
        exact hA x hx
    · obtain ⟨b, hb0, hb1, hb2, hb3⟩ := ih (n + 4) hT
      refine ⟨b, by omega, by rw [List.length_cons]; omega, ?_, ?_⟩
      · unfold BatchOf
        rw [List.getLast?_append_of_ne_nil _ hT]
        exact hb2
      · intro x hx
        unfold BatchOf at hx
        rw [List.mem_append] at hx
        rcases hx with hx | hx
        · obtain ⟨v, hv1, hv2⟩ := hA x hx
          exact ⟨v, hv1, by omega⟩
        · exact hb3 x hx

/-! ## C1: visibility culling -/

/-- C1. For a grid whose solid bricks all hold a material slot and a chunk whose size plus
one fits a vertex component (at most 255 on each axis), the constructor succeeds, and for
every brick `B` of the chunk and every face direction `D < 6`: the vertex buffer contains
a 4-aligned run of the four corner positions of that face if and only if `B` is not empty
and the brick in front of the face, `B + FaceNormals[D]`, is empty. In particular a brick
whose six neighbours are all non-empty contributes no face, and a solid brick whose front
brick lies outside the chunk and is empty contributes that outward face. -/
theorem visibility_culling (Component : UBrickRenderComponent)
    (hmat : ∀ C, Component.Grid.GetBrick C ≠ Component.Grid.EmptyMaterialIndex →
      Component.Grid.GetBrick C < Component.Grid.NumMaterials)
    (hsize : Component.Grid.BricksPerRenderChunk.X + 1 ≤ 255 ∧
      Component.Grid.BricksPerRenderChunk.Y + 1 ≤ 255 ∧
      Component.Grid.BricksPerRenderChunk.Z + 1 ≤ 255) :
    ∃ r, FBrickChunkSceneProxy.ctor Component = some r ∧
      ∀ (B : FInt3) (D : Nat), (MinBrickCoordinates Component).le B →
        B.lt (MinBrickCoordinates Component + Component.Grid.BricksPerRenderChunk) → D < 6 →
        (HasQuad r.Vertices (MinBrickCoordinates Component) B D ↔
          (Component.Grid.GetBrick B ≠ Component.Grid.EmptyMaterialIndex ∧
            Component.Grid.GetBrick (B + FaceNormals D) =
              Component.Grid.EmptyMaterialIndex)) ∧
        ((∀ D', D' < 6 → Component.Grid.GetBrick (B + FaceNormals D') ≠
            Component.Grid.EmptyMaterialIndex) →
          ¬ HasQuad r.Vertices (MinBrickCoordinates Component) B D) ∧
        (Component.Grid.GetBrick B ≠ Component.Grid.EmptyMaterialIndex →
          ¬ (B + FaceNormals D).lt
            (MinBrickCoordinates Component + Component.Grid.BricksPerRenderChunk) →
          Component.Grid.GetBrick (B + FaceNormals D) = Component.Grid.EmptyMaterialIndex →
          HasQuad r.Vertices (MinBrickCoordinates Component) B D) := by
  have hvalid : ∀ f ∈ EmittedFaces Component,
      Component.Grid.GetBrick f.1 < Component.Grid.NumMaterials := by
    intro f hf
    have hf' : (f.1, f.2) ∈ EmittedFaces Component := hf
    rw [mem_EmittedFaces] at hf'
    exact hmat _ hf'.2.2.1
  obtain ⟨r, hr⟩ := ctor_of_valid Component hvalid
  obtain ⟨_, hV, _, _⟩ := ctor_some hr
  refine ⟨r, hr, ?_⟩
  intro B D hle hlt hD
  have hBmem : B ∈ TraversalBricks Component := by
    rw [mem_TraversalBricks]
    refine ⟨hle, ?_⟩
    obtain ⟨h1, h2, h3⟩ := hlt
    simp only [FInt3.add_X, FInt3.add_Y, FInt3.add_Z] at h1 h2 h3
    simp only [FInt3.lt, MaxBrickCoordinatesPlus1, FInt3.add_X, FInt3.add_Y, FInt3.add_Z,
      FInt3.Scalar]
    omega
  obtain ⟨bX, bY, bZ⟩ := chunk_brick_bounds Component B hsize hBmem
  have hiff : HasQuad r.Vertices (MinBrickCoordinates Component) B D ↔
      (Component.Grid.GetBrick B ≠ Component.Grid.EmptyMaterialIndex ∧
        Component.Grid.GetBrick (B + FaceNormals D) = Component.Grid.EmptyMaterialIndex) := by
    rw [hV]
    constructor
    · rintro ⟨q, hq⟩
      have h0 := hq 0 (by omega)
      rw [getElem?_flatMap_QuadVertices _ _ _ _ (by omega)] at h0
      cases hf : (EmittedFaces Component)[q]? with
      | none => rw [hf] at h0; simp at h0
      | some f =>
        have hfm : (f.1, f.2) ∈ EmittedFaces Component := List.mem_iff_getElem?.2 ⟨q, hf⟩
        rw [mem_EmittedFaces] at hfm
        obtain ⟨hfB, hfD, hsolid, hfront⟩ := hfm
        obtain ⟨cX, cY, cZ⟩ := chunk_brick_bounds Component f.1 hsize hfB
        have hall : ∀ k, k < 4 →
            FaceVertex (MinBrickCoordinates Component) f.1 f.2 k =
              CornerPosition (MinBrickCoordinates Component) B D k := by
          intro k hk
          have := hq k hk
          rw [getElem?_flatMap_QuadVertices _ _ _ _ hk, hf] at this
          simpa using this
        obtain ⟨e1, e2⟩ := face_of_quad _ B f.1 D f.2 hD hfD bX bY bZ cX cY cZ hall
        rw [e1] at hsolid hfront
        rw [e2] at hfront
        exact ⟨hsolid, hfront⟩
    · rintro ⟨hsolid, hfront⟩
      have hmem : (B, D) ∈ EmittedFaces Component := by
        rw [mem_EmittedFaces]
        exact ⟨hBmem, hD, hsolid, hfront⟩
      obtain ⟨q, hq⟩ := List.mem_iff_getElem?.1 hmem
      refine ⟨q, fun k hk => ?_⟩
      rw [getElem?_flatMap_QuadVertices _ _ _ _ hk, hq]
      simp only [Option.map_some']
      rw [FaceVertex_eq_CornerPosition _ B D k hD hk bX bY bZ]
  refine ⟨hiff, ?_, ?_⟩
  · intro hn hq
    exact hn D hD (hiff.1 hq).2
  · intro hsolid _ hfront
    exact hiff.2 ⟨hsolid, hfront⟩

theorem visibility_culling_witness :
    (∀ C, singleBrickChunk.Grid.GetBrick C ≠ singleBrickChunk.Grid.EmptyMaterialIndex →
      singleBrickChunk.Grid.GetBrick C < singleBrickChunk.Grid.NumMaterials) ∧
    (singleBrickChunk.Grid.BricksPerRenderChunk.X + 1 ≤ 255 ∧
      singleBrickChunk.Grid.BricksPerRenderChunk.Y + 1 ≤ 255 ∧
      singleBrickChunk.Grid.BricksPerRenderChunk.Z + 1 ≤ 255) ∧
    ∃ r, FBrickChunkSceneProxy.ctor singleBrickChunk = some r ∧
      ∀ (B : FInt3) (D : Nat), (MinBrickCoordinates singleBrickChunk).le B →
        B.lt (MinBrickCoordinates singleBrickChunk +
          singleBrickChunk.Grid.BricksPerRenderChunk) → D < 6 →
        (HasQuad r.Vertices (MinBrickCoordinates singleBrickChunk) B D ↔
          (singleBrickChunk.Grid.GetBrick B ≠ singleBrickChunk.Grid.EmptyMaterialIndex ∧
            singleBrickChunk.Grid.GetBrick (B + FaceNormals D) =
              singleBrickChunk.Grid.EmptyMaterialIndex)) ∧
        ((∀ D', D' < 6 → singleBrickChunk.Grid.GetBrick (B + FaceNormals D') ≠
            singleBrickChunk.Grid.EmptyMaterialIndex) →
          ¬ HasQuad r.Vertices (MinBrickCoordinates singleBrickChunk) B D) ∧
        (singleBrickChunk.Grid.GetBrick B ≠ singleBrickChunk.Grid.EmptyMaterialIndex →
          ¬ (B + FaceNormals D).lt
            (MinBrickCoordinates singleBrickChunk +
              singleBrickChunk.Grid.BricksPerRenderChunk) →
          singleBrickChunk.Grid.GetBrick (B + FaceNormals D) =
            singleBrickChunk.Grid.EmptyMaterialIndex →
          HasQuad r.Vertices (MinBrickCoordinates singleBrickChunk) B D) :=
  have hmat : ∀ C, singleBrickChunk.Grid.GetBrick C ≠ singleBrickChunk.Grid.EmptyMaterialIndex →
      singleBrickChunk.Grid.GetBrick C < singleBrickChunk.Grid.NumMaterials := by
    intro C _
    show (if C = ⟨0, 0, 0⟩ then 1 else 0) < 2
    split <;> decide
  have hsize : singleBrickChunk.Grid.BricksPerRenderChunk.X + 1 ≤ 255 ∧
      singleBrickChunk.Grid.BricksPerRenderChunk.Y + 1 ≤ 255 ∧
      singleBrickChunk.Grid.BricksPerRenderChunk.Z + 1 ≤ 255 := by decide
  ⟨hmat, hsize, visibility_culling singleBrickChunk hmat hsize⟩

/-! ## C2: a single exposed brick -/

theorem FaceNormals_ne_zero (B : FInt3) (D : Nat) (hD : D < 6) : B + FaceNormals D ≠ B := by
  intro h
  rw [FInt3.ext_iff3] at h
  simp only [FInt3.add_X, FInt3.add_Y, FInt3.add_Z] at h
  interval_cases D <;> simp [FaceNormals, FaceNormalsTable] at h

/-- When only the brick `B0` is solid among the bricks that the traversal reads, the
emitted faces are the six faces of `B0`, in the order 0..5. -/
theorem EmittedFaces_single (Component : UBrickRenderComponent) (B0 : FInt3)
    (hin : B0 ∈ TraversalBricks Component)
    (hM : Component.Grid.GetBrick B0 ≠ Component.Grid.EmptyMaterialIndex)
    (hempty : ∀ C, C ≠ B0 →
      (C ∈ TraversalBricks Component ∨ ∃ D, D < 6 ∧ C = B0 + FaceNormals D) →
      Component.Grid.GetBrick C = Component.Grid.EmptyMaterialIndex) :
    EmittedFaces Component = (List.range 6).map (fun D => (B0, D)) := by
  unfold EmittedFaces
  rw [flatMap_eq_of_single _ _ B0 (nodup_TraversalBricks Component) hin]
  · unfold BrickFaces
    rw [if_pos hM]
    congr 1
    rw [List.filter_eq_self]
    intro D hD
    rw [List.mem_range] at hD
    rw [decide_eq_true_eq]
    exact hempty _ (FaceNormals_ne_zero B0 D hD) (Or.inr ⟨D, hD, rfl⟩)
  · intro B hB hne
    unfold BrickFaces
    rw [if_neg]
    rw [not_not]
    exact hempty B hne (Or.inl hB)

theorem BatchOf_single (Grid : UBrickGridComponent) (B0 : FInt3) (m d : Nat) :
    BatchOf Grid ((List.range 6).map (fun D => (B0, D))) 0 m d =
      if m = Grid.GetBrick B0 ∧ d < 6 then singleBatch d else [] := by
  have hr : List.range 6 = [0, 1, 2, 3, 4, 5] := by decide
  rw [hr]
  simp only [List.map_cons, List.map_nil, BatchOf]
  by_cases hm : m = Grid.GetBrick B0
  · by_cases hd : d < 6
    · simp only [hm, hd, and_self, if_true, true_and]
      interval_cases d <;> decide
    · have h0 : ∀ k, k < 6 → ¬ d = k := by omega
      simp [hd, h0]
  · simp [hm]

theorem flatMap_filter_nonempty (MB : Nat → Nat → List Int) (ps : List (Nat × Nat)) :
    ps.flatMap (fun p => MB p.1 p.2) =
      (ps.filter (fun p => decide (0 < (MB p.1 p.2).length))).flatMap
        (fun p => MB p.1 p.2) := by
  induction ps with
  | nil => rfl
  | cons p ps ih =>
    by_cases h : 0 < (MB p.1 p.2).length
    · rw [List.filter_cons_of_pos (by simpa using h), List.flatMap_cons, List.flatMap_cons, ih]
    · rw [List.filter_cons_of_neg (by simpa using h), List.flatMap_cons, ih]
      have h0 : MB p.1 p.2 = [] := List.length_eq_zero.1 (by omega)
      rw [h0, List.nil_append]

theorem ElementsFrom_filter_nonempty (MB : Nat → Nat → List Int) (n : Nat)
    (ps : List (Nat × Nat)) :
    ElementsFrom MB n ps =
      ElementsFrom MB n (ps.filter (fun p => decide (0 < (MB p.1 p.2).length))) := by
  induction ps generalizing n with
  | nil => rfl
  | cons p ps ih =>
    by_cases h : 0 < (MB p.1 p.2).length
    · rw [List.filter_cons_of_pos (by simpa using h)]
      unfold ElementsFrom
      simp only [gt_iff_lt, h, if_true]
      rw [← ih]
    · rw [List.filter_cons_of_neg (by simpa using h)]
      conv_lhs => unfold ElementsFrom
      simp only [gt_iff_lt, h, if_false]
      exact ih n

theorem BatchPairs_filter_single (N M : Nat) (hM : M < N) (MB : Nat → Nat → List Int)
    (hMB : ∀ m d, 0 < (MB m d).length ↔ m = M ∧ d < 6) :
    (BatchPairs N).filter (fun p => decide (0 < (MB p.1 p.2).length)) =
      (List.range 6).map (fun d => (M, d)) := by
  unfold BatchPairs
  rw [List.filter_flatMap]
  rw [flatMap_eq_of_single _ _ M (List.nodup_range N) (List.mem_range.2 hM)]
  · rw [List.filter_eq_self]
    intro p hp
    rw [List.mem_map] at hp
    obtain ⟨d, hd, rfl⟩ := hp
    rw [decide_eq_true_eq, hMB]
    exact ⟨rfl, List.mem_range.1 hd⟩
  · intro m _ hne
    rw [List.filter_eq_nil_iff]
    intro p hp
    rw [List.mem_map] at hp
    obtain ⟨d, _, rfl⟩ := hp
    rw [decide_eq_true_eq, hMB]
    exact fun h => hne h.1

theorem ElementsFrom_single (MB : Nat → Nat → List Int) (M : Nat)
    (h : ∀ d, d < 6 → MB M d = singleBatch d) :
    ElementsFrom MB 0 ((List.range 6).map (fun d => (M, d))) = singleElements M := by
  have hr6 : List.range 6 = [0, 1, 2, 3, 4, 5] := by decide
  rw [hr6]
  simp only [List.map_cons, List.map_nil, ElementsFrom, h 0 (by omega), h 1 (by omega),
    h 2 (by omega), h 3 (by omega), h 4 (by omega), h 5 (by omega)]
  simp [singleBatch, singleElements]

theorem flatMap_single (MB : Nat → Nat → List Int) (M : Nat)
    (h : ∀ d, d < 6 → MB M d = singleBatch d) :
    ((List.range 6).map (fun d => (M, d))).flatMap (fun p => MB p.1 p.2) = singleIndices := by
  have hr6 : List.range 6 = [0, 1, 2, 3, 4, 5] := by decide
  rw [hr6]
  simp only [List.map_cons, List.map_nil, List.flatMap_cons, List.flatMap_nil,
    h 0 (by omega), h 1 (by omega), h 2 (by omega), h 3 (by omega), h 4 (by omega),
    h 5 (by omega)]
  simp [singleBatch, singleIndices]

/-- C2. If a brick `B0` inside the chunk holds a material `M` that is a slot and not the
empty material, and every other brick that the mesher reads (the bricks it visits and
the six bricks around `B0`) is empty, then the constructor succeeds with exactly 24
vertices, 36 indices and 6 elements: one element for each face direction in the order
0..5, each with material `M` and 2 triangles; the vertices are the corners of the six
faces of `B0` and the indices are the two triangles of each quad in turn. -/
theorem single_exposed_brick (Component : UBrickRenderComponent) (B0 : FInt3) (M : Nat)
    (hin : (MinBrickCoordinates Component).le B0 ∧
      B0.lt (MinBrickCoordinates Component + Component.Grid.BricksPerRenderChunk))
    (hM : Component.Grid.GetBrick B0 = M)
    (hMe : M ≠ Component.Grid.EmptyMaterialIndex)
    (hMn : M < Component.Grid.NumMaterials)
    (hempty : ∀ C, C ≠ B0 →
      (((MinBrickCoordinates Component).le C ∧ C.lt (MaxBrickCoordinatesPlus1 Component)) ∨
        ∃ D, D < 6 ∧ C = B0 + FaceNormals D) →
      Component.Grid.GetBrick C = Component.Grid.EmptyMaterialIndex) :
    ∃ r, FBrickChunkSceneProxy.ctor Component = some r ∧
      r.Vertices.length = 24 ∧ r.Indices.length = 36 ∧ r.Elements.length = 6 ∧
      r.Elements = singleElements M ∧
      r.Indices = singleIndices ∧
      r.Vertices = (List.range 6).flatMap (fun D =>
        (List.range 4).map (FaceVertex (MinBrickCoordinates Component) B0 D)) := by
  have hB0 : B0 ∈ TraversalBricks Component := by
    rw [mem_TraversalBricks]
    refine ⟨hin.1, ?_⟩
    obtain ⟨h1, h2, h3⟩ := hin.2
    simp only [FInt3.add_X, FInt3.add_Y, FInt3.add_Z] at h1 h2 h3
    simp only [FInt3.lt, MaxBrickCoordinatesPlus1, FInt3.add_X, FInt3.add_Y, FInt3.add_Z,
      FInt3.Scalar]
    omega
  have hfaces := EmittedFaces_single Component B0 hB0 (by rw [hM]; exact hMe)
    (by
      intro C hC h
      apply hempty C hC
      rcases h with h | h
      · exact Or.inl ((mem_TraversalBricks _ _).1 h)
      · exact Or.inr h)
  have hvalid : ∀ f ∈ EmittedFaces Component,
      Component.Grid.GetBrick f.1 < Component.Grid.NumMaterials := by
    intro f hf
    rw [hfaces, List.mem_map] at hf
    obtain ⟨D, _, rfl⟩ := hf
    rw [hM]
    exact hMn
  obtain ⟨r, hr⟩ := ctor_of_valid Component hvalid
  obtain ⟨_, hV, hI, hE⟩ := ctor_some hr
  rw [hfaces] at hV hI hE
  have hMB : ∀ m d, 0 < (BatchOf Component.Grid
      ((List.range 6).map (fun D => (B0, D))) 0 m d).length ↔ m = M ∧ d < 6 := by
    intro m d
    rw [BatchOf_single, hM]
    by_cases h : m = M ∧ d < 6
    · simp only [h, and_self, if_true, iff_true]
      obtain ⟨_, hd⟩ := h
      interval_cases d <;> decide
    · simp [h]
  have hpairs := BatchPairs_filter_single Component.Grid.NumMaterials M hMn _ hMB
  have hr6 : List.range 6 = [0, 1, 2, 3, 4, 5] := by decide
  have hMB6 : ∀ d, d < 6 → BatchOf Component.Grid
      ((List.range 6).map (fun D => (B0, D))) 0 M d = singleBatch d := by
    intro d hd
    rw [BatchOf_single, hM, if_pos ⟨rfl, hd⟩]
  have hEl : r.Elements = singleElements M := by
    rw [hE, ElementsFrom_filter_nonempty, hpairs]
    exact ElementsFrom_single _ M hMB6
  have hIx : r.Indices = singleIndices := by
    rw [hI, flatMap_filter_nonempty, hpairs]
    exact flatMap_single _ M hMB6
  have hVx : r.Vertices = (List.range 6).flatMap (fun D =>
      (List.range 4).map (FaceVertex (MinBrickCoordinates Component) B0 D)) := by
    rw [hV, List.flatMap_map]
    rfl
  refine ⟨r, hr, ?_, ?_, ?_, hEl, hIx, hVx⟩
  · rw [hVx]
    simp [hr6]
  · rw [hIx]
    rfl
  · rw [hEl]
    rfl

set_option maxRecDepth 100000 in
theorem single_exposed_brick_witness :
    ((MinBrickCoordinates singleBrickChunk).le ⟨0, 0, 0⟩ ∧
      FInt3.lt ⟨0, 0, 0⟩ (MinBrickCoordinates singleBrickChunk +
        singleBrickChunk.Grid.BricksPerRenderChunk)) ∧
    singleBrickChunk.Grid.GetBrick ⟨0, 0, 0⟩ = 1 ∧
    1 ≠ singleBrickChunk.Grid.EmptyMaterialIndex ∧
    1 < singleBrickChunk.Grid.NumMaterials ∧
    (∀ C : FInt3, C ≠ ⟨0, 0, 0⟩ →
      (((MinBrickCoordinates singleBrickChunk).le C ∧
          C.lt (MaxBrickCoordinatesPlus1 singleBrickChunk)) ∨
        ∃ D, D < 6 ∧ C = (⟨0, 0, 0⟩ : FInt3) + FaceNormals D) →
      singleBrickChunk.Grid.GetBrick C = singleBrickChunk.Grid.EmptyMaterialIndex) ∧
    (∃ r, FBrickChunkSceneProxy.ctor singleBrickChunk = some r ∧
      r.Vertices.length = 24 ∧ r.Indices.length = 36 ∧ r.Elements.length = 6 ∧
      r.Elements = singleElements 1 ∧
      r.Indices = singleIndices ∧
      r.Vertices = (List.range 6).flatMap (fun D =>
        (List.range 4).map (FaceVertex (MinBrickCoordinates singleBrickChunk) ⟨0, 0, 0⟩ D))) ∧
    FBrickChunkSceneProxy.ctor singleBrickChunk = some singleBrickMesh ∧
    (∀ v ∈ singleBrickMesh.Vertices, (v.X = 0 ∨ v.X = 1) ∧ (v.Y = 0 ∨ v.Y = 1) ∧
      (v.Z = 0 ∨ v.Z = 1)) :=
  have hin : (MinBrickCoordinates singleBrickChunk).le ⟨0, 0, 0⟩ ∧
      FInt3.lt ⟨0, 0, 0⟩ (MinBrickCoordinates singleBrickChunk +
        singleBrickChunk.Grid.BricksPerRenderChunk) := by decide
  have hempty : ∀ C : FInt3, C ≠ ⟨0, 0, 0⟩ →
      (((MinBrickCoordinates singleBrickChunk).le C ∧
          C.lt (MaxBrickCoordinatesPlus1 singleBrickChunk)) ∨
        ∃ D, D < 6 ∧ C = (⟨0, 0, 0⟩ : FInt3) + FaceNormals D) →
      singleBrickChunk.Grid.GetBrick C = singleBrickChunk.Grid.EmptyMaterialIndex := by
    intro C hC _
    show (if C = ⟨0, 0, 0⟩ then 1 else 0) = 0
    rw [if_neg hC]
  ⟨hin, by decide, by decide, by decide, hempty,
    single_exposed_brick singleBrickChunk ⟨0, 0, 0⟩ 1 hin (by decide) (by decide) (by decide)
      hempty,
    by decide, by decide⟩

/-! ## C3: material batching -/

/-- C3. Whenever the constructor succeeds with at most 65536 vertices (so that a 16-bit
index names a vertex), every index in the run of an element `E` refers to a quad that
was emitted for a brick whose material is `E.MaterialIndex` and for the face direction
`E.FaceIndex`: the face with the number of that quad in the order of emission is
`(B, E.FaceIndex)` with `GetBrick(B) = E.MaterialIndex`, and the four vertices of the
quad are the vertices written for that face. Hence the faces referenced from one element
all have the same material and the same direction. -/
theorem material_batching (Component : UBrickRenderComponent) (r : FBrickChunkSceneProxy)
    (h : FBrickChunkSceneProxy.ctor Component = some r)
    (hcap : r.Vertices.length ≤ 65536) :
    (∀ E ∈ r.Elements, ∀ idx ∈ ElementRun r E,
      ∃ B : FInt3, (EmittedFaces Component)[quadOf idx]? = some (B, E.FaceIndex) ∧
        Component.Grid.GetBrick B = E.MaterialIndex ∧
        ∀ k, k < 4 → r.Vertices[4 * quadOf idx + k]? =
          some (FaceVertex (MinBrickCoordinates Component) B E.FaceIndex k)) ∧
    (∀ E ∈ r.Elements, ∀ idx ∈ ElementRun r E, ∀ idx' ∈ ElementRun r E,
      ∀ (B B' : FInt3) (D D' : Nat),
        (EmittedFaces Component)[quadOf idx]? = some (B, D) →
        (EmittedFaces Component)[quadOf idx']? = some (B', D') →
        Component.Grid.GetBrick B = Component.Grid.GetBrick B' ∧ D = D') := by
  have main : ∀ E ∈ r.Elements, ∀ idx ∈ ElementRun r E,
      ∃ B : FInt3, (EmittedFaces Component)[quadOf idx]? = some (B, E.FaceIndex) ∧
        Component.Grid.GetBrick B = E.MaterialIndex ∧
        ∀ k, k < 4 → r.Vertices[4 * quadOf idx + k]? =
          some (FaceVertex (MinBrickCoordinates Component) B E.FaceIndex k) := by
    intro E hE idx hidx
    obtain ⟨_, hV, _, _⟩ := ctor_some h
    rw [ElementRun_eq h E hE] at hidx
    obtain ⟨q, k, f, hk, hx, hq, hm, hd⟩ := mem_BatchOf _ _ _ _ _ _ hidx
    have hqlt : q < (EmittedFaces Component).length := by
      rw [List.getElem?_eq_some] at hq
      exact hq.1
    have hlen : r.Vertices.length = 4 * (EmittedFaces Component).length := by
      rw [hV, length_flatMap_QuadVertices]
    have hquad : quadOf idx = q := by
      rw [hx]
      exact quadOf_toInt16 q k hk (by omega)
    refine ⟨f.1, ?_, hm, ?_⟩
    · rw [hquad, hq, ← hd]
    · intro k' hk'
      rw [hquad, hV, getElem?_flatMap_QuadVertices _ _ _ _ hk', hq, ← hd]
      rfl
  refine ⟨main, ?_⟩
  intro E hE idx hidx idx' hidx' B B' D D' hf hf'
  obtain ⟨B1, h1, h2, _⟩ := main E hE idx hidx
  obtain ⟨B2, h3, h4, _⟩ := main E hE idx' hidx'
  rw [hf] at h1
  rw [hf'] at h3
  simp only [Option.some.injEq, Prod.mk.injEq] at h1 h3
  obtain ⟨rfl, rfl⟩ := h1
  obtain ⟨rfl, rfl⟩ := h3
  exact ⟨by rw [h2, h4], rfl⟩

set_option maxRecDepth 100000 in
theorem material_batching_witness :
    ∃ r, FBrickChunkSceneProxy.ctor twoMaterialChunk = some r ∧
      r.Vertices.length ≤ 65536 ∧
      r.Elements.map (fun E => (E.MaterialIndex, E.FaceIndex)) =
        [(1, 0), (1, 2), (1, 3), (1, 4), (1, 5), (2, 1), (2, 2), (2, 3), (2, 4), (2, 5)] ∧
      (∀ E ∈ r.Elements, ∀ idx ∈ ElementRun r E,
        ∃ B : FInt3, (EmittedFaces twoMaterialChunk)[quadOf idx]? = some (B, E.FaceIndex) ∧
          twoMaterialChunk.Grid.GetBrick B = E.MaterialIndex ∧
          ∀ k, k < 4 → r.Vertices[4 * quadOf idx + k]? =
            some (FaceVertex (MinBrickCoordinates twoMaterialChunk) B E.FaceIndex k)) ∧
      (∀ E ∈ r.Elements, ∀ idx ∈ ElementRun r E, ∀ idx' ∈ ElementRun r E,
        ∀ (B B' : FInt3) (D D' : Nat),
          (EmittedFaces twoMaterialChunk)[quadOf idx]? = some (B, D) →
          (EmittedFaces twoMaterialChunk)[quadOf idx']? = some (B', D') →
          twoMaterialChunk.Grid.GetBrick B = twoMaterialChunk.Grid.GetBrick B' ∧ D = D') := by
  cases h : FBrickChunkSceneProxy.ctor twoMaterialChunk with
  | none => exact absurd h (by decide)
  | some r =>
    have h2 : (FBrickChunkSceneProxy.ctor twoMaterialChunk).map
        (fun r => (r.Vertices.length, r.Elements.map (fun E => (E.MaterialIndex, E.FaceIndex)))) =
        some (40, [(1, 0), (1, 2), (1, 3), (1, 4), (1, 5), (2, 1), (2, 2), (2, 3), (2, 4),
          (2, 5)]) := by decide
    rw [h] at h2
    simp only [Option.map_some', Option.some.injEq, Prod.mk.injEq] at h2
    have hlen : r.Vertices.length ≤ 65536 := by omega
    exact ⟨r, rfl, hlen, h2.2, material_batching twoMaterialChunk r h hlen⟩

/-! ## C4: order of the elements -/

theorem ReceivesFace_iff (Component : UBrickRenderComponent) (m d : Nat) :
    ReceivesFace Component m d ↔
      ∃ f ∈ EmittedFaces Component, Component.Grid.GetBrick f.1 = m ∧ f.2 = d := by
  unfold ReceivesFace
  constructor
  · rintro ⟨B, h1, h2, h3, h4, h5, h6⟩
    refine ⟨(B, d), ?_, h4, rfl⟩
    rw [mem_EmittedFaces, mem_TraversalBricks]
    exact ⟨⟨h1, h2⟩, h3, by rw [h4]; exact h5, h6⟩
  · rintro ⟨⟨B, D⟩, hf, h1, h2⟩
    rw [mem_EmittedFaces, mem_TraversalBricks] at hf
    simp only at h1 h2
    subst h2
    obtain ⟨⟨h3, h4⟩, h5, h6, h7⟩ := hf
    exact ⟨B, h3, h4, h5, h1, by rw [← h1]; exact h6, h7⟩

theorem mem_element_keys {Component : UBrickRenderComponent} {r : FBrickChunkSceneProxy}
    (h : FBrickChunkSceneProxy.ctor Component = some r) (m d : Nat) :
    (m, d) ∈ r.Elements.map (fun E => (E.MaterialIndex, E.FaceIndex)) ↔
      ReceivesFace Component m d := by
  obtain ⟨hval, _, _, hE⟩ := ctor_some h
  rw [hE, ElementsFrom_keys, List.mem_filter, mem_BatchPairs, ReceivesFace_iff,
    decide_eq_true_eq, List.length_pos, BatchOf_ne_nil_iff]
  constructor
  · exact fun h => h.2
  · rintro ⟨f, hf, h1, h2⟩
    refine ⟨⟨?_, ?_⟩, f, hf, h1, h2⟩
    · rw [← h1]
      exact hval f hf
    · rw [← h2]
      have hf' : (f.1, f.2) ∈ EmittedFaces Component := hf
      rw [mem_EmittedFaces] at hf'
      exact hf'.2.1

theorem nodup_element_keys {Component : UBrickRenderComponent} {r : FBrickChunkSceneProxy}
    (h : FBrickChunkSceneProxy.ctor Component = some r) :
    (r.Elements.map (fun E => (E.MaterialIndex, E.FaceIndex))).Nodup := by
  obtain ⟨_, _, _, hE⟩ := ctor_some h
  rw [hE, ElementsFrom_keys]
  exact (nodup_BatchPairs _).filter _

theorem length_filter_key_eq_one (Es : List FElement) (m d : Nat)
    (hnd : (Es.map (fun E => (E.MaterialIndex, E.FaceIndex))).Nodup)
    (hmem : (m, d) ∈ Es.map (fun E => (E.MaterialIndex, E.FaceIndex))) :
    (Es.filter (fun E => decide (E.MaterialIndex = m ∧ E.FaceIndex = d))).length = 1 := by
  induction Es with
  | nil => simp at hmem
  | cons E Es ih =>
    rw [List.map_cons, List.nodup_cons] at hnd
    by_cases hE : E.MaterialIndex = m ∧ E.FaceIndex = d
    · rw [List.filter_cons_of_pos (by simpa using hE)]
      have hnone : Es.filter (fun E => decide (E.MaterialIndex = m ∧ E.FaceIndex = d)) = [] := by
        rw [List.filter_eq_nil_iff]
        intro E' hE' hkey
        simp only [decide_eq_true_eq] at hkey
        apply hnd.1
        rw [List.mem_map]
        exact ⟨E', hE', by rw [hkey.1, hkey.2, hE.1, hE.2]⟩
      rw [hnone]
      rfl
    · rw [List.filter_cons_of_neg (by simpa using hE)]
      apply ih hnd.2
      rw [List.map_cons, List.mem_cons] at hmem
      rcases hmem with hmem | hmem
      · rw [Prod.mk.injEq] at hmem
        exact absurd ⟨hmem.1.symm, hmem.2.symm⟩ hE
      · exact hmem

/-- C4. Whenever the constructor succeeds, the element list is strictly increasing in the
lexicographic order on (MaterialIndex, FaceIndex); a pair (m, d) whose batch received
at least one face has exactly one element, a pair whose batch received none has no
element; and every element has at least two primitives. -/
theorem element_order (Component : UBrickRenderComponent) (r : FBrickChunkSceneProxy)
    (h : FBrickChunkSceneProxy.ctor Component = some r) :
    r.Elements.Pairwise (fun E E' => E.MaterialIndex < E'.MaterialIndex ∨
      (E.MaterialIndex = E'.MaterialIndex ∧ E.FaceIndex < E'.FaceIndex)) ∧
    (∀ m d, ReceivesFace Component m d →
      (r.Elements.filter
        (fun E => decide (E.MaterialIndex = m ∧ E.FaceIndex = d))).length = 1) ∧
    (∀ m d, ¬ ReceivesFace Component m d →
      ∀ E ∈ r.Elements, ¬ (E.MaterialIndex = m ∧ E.FaceIndex = d)) ∧
    (∀ E ∈ r.Elements, 2 ≤ E.NumPrimitives) := by
  obtain ⟨_, _, _, hE⟩ := ctor_some h
  refine ⟨?_, ?_, ?_, ?_⟩
  · have hp := (pairwise_BatchPairs Component.Grid.NumMaterials).filter
      (fun p => decide (0 < (BatchOf Component.Grid (EmittedFaces Component) 0 p.1 p.2).length))
    rw [← ElementsFrom_keys _ 0, ← hE, List.pairwise_map] at hp
    exact hp
  · intro m d hmd
    exact length_filter_key_eq_one _ m d (nodup_element_keys h) ((mem_element_keys h m d).2 hmd)
  · intro m d hmd E hE' hkey
    apply hmd
    rw [← mem_element_keys h]
    rw [List.mem_map]
    exact ⟨E, hE', by rw [hkey.1, hkey.2]⟩
  · intro E hE'
    rw [hE] at hE'
    obtain ⟨_, _, _, _, h3, h4⟩ := mem_ElementsFrom _ _ _ _ hE'
    have hd := length_BatchOf_dvd Component.Grid (EmittedFaces Component) 0
      E.MaterialIndex E.FaceIndex
    rw [h3]
    omega

set_option maxRecDepth 100000 in
theorem element_order_witness :
    FBrickChunkSceneProxy.ctor singleBrickChunk = some singleBrickMesh ∧
    singleBrickMesh.Elements.Pairwise (fun E E' => E.MaterialIndex < E'.MaterialIndex ∨
      (E.MaterialIndex = E'.MaterialIndex ∧ E.FaceIndex < E'.FaceIndex)) ∧
    (∀ m d, ReceivesFace singleBrickChunk m d →
      (singleBrickMesh.Elements.filter
        (fun E => decide (E.MaterialIndex = m ∧ E.FaceIndex = d))).length = 1) ∧
    (∀ m d, ¬ ReceivesFace singleBrickChunk m d →
      ∀ E ∈ singleBrickMesh.Elements, ¬ (E.MaterialIndex = m ∧ E.FaceIndex = d)) ∧
    (∀ E ∈ singleBrickMesh.Elements, 2 ≤ E.NumPrimitives) :=
  ⟨by decide, element_order singleBrickChunk singleBrickMesh (by decide)⟩

/-! ## C5: the elements tile the index buffer -/

theorem Tiles_ctor {Component : UBrickRenderComponent} {r : FBrickChunkSceneProxy}
    (h : FBrickChunkSceneProxy.ctor Component = some r) :
    Tiles 0 r.Elements r.Indices.length := by
  obtain ⟨_, _, hI, hE⟩ := ctor_some h
  have ht := Tiles_ElementsFrom (BatchOf Component.Grid (EmittedFaces Component) 0) 0
    (BatchPairs Component.Grid.NumMaterials)
    (fun p _ => Dvd.dvd.trans (by decide) (length_BatchOf_dvd _ _ _ _ _))
  rw [Nat.zero_add, ← hI, ← hE] at ht
  exact ht

/-- C5. Whenever the constructor succeeds, the elements tile the index buffer: the first
element starts at index 0, each later element starts where the previous one ends
(FirstIndex + 3 * NumPrimitives), the last element ends at the length of the index
buffer, and without elements the index buffer is empty. Hence every run lies inside the
buffer, the runs of two distinct elements are disjoint, and every position of the index
buffer lies in the run of some element. -/
theorem elements_tile_indices (Component : UBrickRenderComponent) (r : FBrickChunkSceneProxy)
    (h : FBrickChunkSceneProxy.ctor Component = some r) :
    (∀ E, r.Elements.head? = some E → E.FirstIndex = 0) ∧
    (∀ (i : Nat) (E E' : FElement), r.Elements[i]? = some E → r.Elements[i + 1]? = some E' →
      E'.FirstIndex = E.FirstIndex + 3 * E.NumPrimitives) ∧
    (∀ E, r.Elements.getLast? = some E →
      E.FirstIndex + 3 * E.NumPrimitives = r.Indices.length) ∧
    (r.Elements = [] → r.Indices = []) ∧
    (∀ E ∈ r.Elements, E.FirstIndex + E.NumPrimitives * 3 ≤ r.Indices.length) ∧
    (∀ (i j : Nat) (E E' : FElement), i < j → r.Elements[i]? = some E → r.Elements[j]? = some E' →
      E.FirstIndex + 3 * E.NumPrimitives ≤ E'.FirstIndex) ∧
    (∀ p, p < r.Indices.length →
      ∃ E ∈ r.Elements, E.FirstIndex ≤ p ∧ p < E.FirstIndex + 3 * E.NumPrimitives) := by
  have ht := Tiles_ctor h
  refine ⟨Tiles_head ht, Tiles_next ht, Tiles_last ht, ?_, ?_, ?_, ?_⟩
  · intro hnil
    rw [hnil] at ht
    simp only [Tiles] at ht
    exact List.length_eq_zero.1 ht.symm
  · intro E hE
    have := ((Tiles_le ht).2 E hE).2
    omega
  · intro i j E E' hij hE hE'
    exact Tiles_disjoint ht i j E E' hij hE hE'
  · intro p hp
    exact Tiles_cover ht p (Nat.zero_le _) hp

set_option maxRecDepth 100000 in
theorem elements_tile_indices_witness :
    FBrickChunkSceneProxy.ctor singleBrickChunk = some singleBrickMesh ∧
    ((∀ E, singleBrickMesh.Elements.head? = some E → E.FirstIndex = 0) ∧
    (∀ (i : Nat) (E E' : FElement), singleBrickMesh.Elements[i]? = some E →
      singleBrickMesh.Elements[i + 1]? = some E' →
      E'.FirstIndex = E.FirstIndex + 3 * E.NumPrimitives) ∧
    (∀ E, singleBrickMesh.Elements.getLast? = some E →
      E.FirstIndex + 3 * E.NumPrimitives = singleBrickMesh.Indices.length) ∧
    (singleBrickMesh.Elements = [] → singleBrickMesh.Indices = []) ∧
    (∀ E ∈ singleBrickMesh.Elements,
      E.FirstIndex + E.NumPrimitives * 3 ≤ singleBrickMesh.Indices.length) ∧
    (∀ (i j : Nat) (E E' : FElement), i < j → singleBrickMesh.Elements[i]? = some E →
      singleBrickMesh.Elements[j]? = some E' →
      E.FirstIndex + 3 * E.NumPrimitives ≤ E'.FirstIndex) ∧
    (∀ p, p < singleBrickMesh.Indices.length →
      ∃ E ∈ singleBrickMesh.Elements,
        E.FirstIndex ≤ p ∧ p < E.FirstIndex + 3 * E.NumPrimitives)) :=
  ⟨by decide, elements_tile_indices singleBrickChunk singleBrickMesh (by decide)⟩

/-! ## C6: validity of the indices -/

/-- C6 (amended). Whenever the constructor succeeds with at most 32768 vertices, every
value of the index buffer, read as the `int16` that the source stores, is a valid vertex
index: `0 <= index < vertices.length`. -/
theorem index_validity (Component : UBrickRenderComponent) (r : FBrickChunkSceneProxy)
    (h : FBrickChunkSceneProxy.ctor Component = some r)
    (hcap : r.Vertices.length ≤ 32768) :
    ∀ idx ∈ r.Indices, 0 ≤ idx ∧ idx < (r.Vertices.length : Int) := by
  intro idx hidx
  obtain ⟨q, k, hk, hlt, hx⟩ := mem_Indices h idx hidx
  rw [hx]
  unfold toInt16
  omega

set_option maxRecDepth 100000 in
theorem index_validity_witness :
    FBrickChunkSceneProxy.ctor singleBrickChunk = some singleBrickMesh ∧
    singleBrickMesh.Vertices.length ≤ 32768 ∧
    ∀ idx ∈ singleBrickMesh.Indices, 0 ≤ idx ∧ idx < (singleBrickMesh.Vertices.length : Int) :=
  ⟨by decide, by decide, index_validity singleBrickChunk singleBrickMesh (by decide) (by decide)⟩

/-- C6 (counterexample). The chunk of the checkerboard grid with 16 bricks per axis has
14742 exposed faces, hence 58968 vertices; the constructor succeeds and the index of
vertex 32768 is stored as the `int16` value -32768, which is not a valid vertex index. -/
theorem index_validity_counterexample :
    ∃ r, FBrickChunkSceneProxy.ctor checkerChunk = some r ∧
      r.Vertices.length = 58968 ∧
      ¬ (∀ idx ∈ r.Indices, 0 ≤ idx ∧ idx < (r.Vertices.length : Int)) := by
  have hvalid : ∀ f ∈ EmittedFaces checkerChunk,
      checkerChunk.Grid.GetBrick f.1 < checkerChunk.Grid.NumMaterials := by
    intro f _
    show (if (f.1.X + f.1.Y + f.1.Z) % 2 = 0 then 1 else 0) < 2
    split <;> decide
  obtain ⟨r, hr⟩ := ctor_of_valid checkerChunk hvalid
  obtain ⟨_, hV, _, _⟩ := ctor_some hr
  have hlen : r.Vertices.length = 58968 := by
    have h1 := length_flatMap_QuadVertices (MinBrickCoordinates checkerChunk)
      (EmittedFaces checkerChunk)
    have h2 := length_EmittedFaces_checkerChunk
    rw [← hV] at h1
    omega
  refine ⟨r, hr, hlen, ?_⟩
  intro hall
  have hmem := toInt16_mem_Indices hr 8192 0 (by omega) (by omega)
  have := (hall _ hmem).1
  unfold toInt16 at this
  omega

/-! ## C7: emptiness -/

set_option maxRecDepth 100000 in
/-- C7 (failing input). Every brick of the chunk (0,0,0) of `haloBrickGrid` is empty, yet
the constructor produces 24 vertices, 36 indices and 6 elements: the traversal also
visits the brick (2,0,0), which lies outside the chunk. -/
theorem emptiness_failing_input :
    (∀ B : FInt3, (MinBrickCoordinates haloBrickChunk).le B →
      B.lt (MinBrickCoordinates haloBrickChunk + haloBrickChunk.Grid.BricksPerRenderChunk) →
      haloBrickChunk.Grid.GetBrick B = haloBrickChunk.Grid.EmptyMaterialIndex) ∧
    (FBrickChunkSceneProxy.ctor haloBrickChunk).map
      (fun r => (r.Vertices.length, r.Indices.length, r.Elements.length)) = some (24, 36, 6) := by
  constructor
  · intro B _ hlt
    show (if B = ⟨2, 0, 0⟩ then 1 else 0) = 0
    rw [if_neg]
    rintro rfl
    exact absurd hlt (by decide)
  · decide

/-! ## C8: range of the vertex components -/

set_option maxRecDepth 100000 in
/-- C8 (failing input). In the chunk (0,0,0) of `haloBrickGrid`, whose size is 2 bricks
per axis, the constructor writes the vertex (3,0,0): its X component exceeds the chunk
size. -/
theorem vertex_range_failing_input :
    haloBrickChunk.Grid.BricksPerRenderChunk = ⟨2, 2, 2⟩ ∧
    ∃ r, FBrickChunkSceneProxy.ctor haloBrickChunk = some r ∧
      ∃ v ∈ r.Vertices, v = ⟨3, 0, 0⟩ ∧
        ¬ ((v.X : Int) ≤ haloBrickChunk.Grid.BricksPerRenderChunk.X) := by
  refine ⟨by decide, ?_⟩
  cases h : FBrickChunkSceneProxy.ctor haloBrickChunk with
  | none => exact absurd h (by decide)
  | some r =>
    refine ⟨r, rfl, ⟨3, 0, 0⟩, ?_, rfl, by decide⟩
    have h2 : (FBrickChunkSceneProxy.ctor haloBrickChunk).map
        (fun r => decide ((⟨3, 0, 0⟩ : FBrickVertex) ∈ r.Vertices)) = some true := by decide
    rw [h] at h2
    simpa using h2

/-! ## C9: winding of the triangles -/

/-- The two triangles of each face of the unit brick, taken from the two tables: the dot
product of the face normal with the cross product of the edges is -1 for all six
directions. -/
theorem table_winding :
    ∀ D, D < 6 →
      (((GetCornerVertexOffset (FaceVertices D 1) - GetCornerVertexOffset (FaceVertices D 0)).cross
        (GetCornerVertexOffset (FaceVertices D 2) - GetCornerVertexOffset (FaceVertices D 0))).dot
          (FaceNormals D) = -1) ∧
      (((GetCornerVertexOffset (FaceVertices D 2) - GetCornerVertexOffset (FaceVertices D 0)).cross
        (GetCornerVertexOffset (FaceVertices D 3) - GetCornerVertexOffset (FaceVertices D 0))).dot
          (FaceNormals D) = -1) := by
  decide

theorem facing_translate (T o0 o1 o2 N : FInt3) :
    (((T + o1) - (T + o0)).cross ((T + o2) - (T + o0))).dot N =
      ((o1 - o0).cross (o2 - o0)).dot N := by
  simp only [FInt3.cross, FInt3.dot, FInt3.add_X, FInt3.add_Y, FInt3.add_Z, FInt3.sub_X,
    FInt3.sub_Y, FInt3.sub_Z]
  ring

/-- C9 (amended). Whenever the constructor succeeds for a chunk whose size plus one fits
a vertex component (at most 255 on each axis), every emitted face of direction `D`, with
stored vertices `v0, v1, v2, v3`, has both of its triangles `(v0, v1, v2)` and
`(v0, v2, v3)` wound the same way: the cross product of the edges has dot product -1
with the outward normal `FaceNormals[D]`, so the right-hand-rule normal of each triangle
points against the outward normal, for all six directions. -/
theorem winding_consistency (Component : UBrickRenderComponent) (r : FBrickChunkSceneProxy)
    (h : FBrickChunkSceneProxy.ctor Component = some r)
    (hsize : Component.Grid.BricksPerRenderChunk.X + 1 ≤ 255 ∧
      Component.Grid.BricksPerRenderChunk.Y + 1 ≤ 255 ∧
      Component.Grid.BricksPerRenderChunk.Z + 1 ≤ 255) :
    ∀ (q : Nat) (B : FInt3) (D : Nat) (v0 v1 v2 v3 : FBrickVertex),
      (EmittedFaces Component)[q]? = some (B, D) →
      r.Vertices[4 * q + 0]? = some v0 → r.Vertices[4 * q + 1]? = some v1 →
      r.Vertices[4 * q + 2]? = some v2 → r.Vertices[4 * q + 3]? = some v3 →
      TriangleFacing v0 v1 v2 (FaceNormals D) = -1 ∧
        TriangleFacing v0 v2 v3 (FaceNormals D) = -1 := by
  intro q B D v0 v1 v2 v3 hq h0 h1 h2 h3
  obtain ⟨_, hV, _, _⟩ := ctor_some h
  have hmem : (B, D) ∈ EmittedFaces Component := List.mem_iff_getElem?.2 ⟨q, hq⟩
  rw [mem_EmittedFaces] at hmem
  obtain ⟨hB, hD, _, _⟩ := hmem
  obtain ⟨bX, bY, bZ⟩ := chunk_brick_bounds Component B hsize hB
  have hv : ∀ k v, k < 4 → r.Vertices[4 * q + k]? = some v →
      v.toFInt3 = (B - MinBrickCoordinates Component) +
        GetCornerVertexOffset (FaceVertices D k) := by
    intro k v hk hkv
    rw [hV, getElem?_flatMap_QuadVertices _ _ _ _ hk, hq] at hkv
    simp only [Option.map_some', Option.some.injEq] at hkv
    rw [← hkv, FaceVertex_eq_CornerPosition _ B D k hD hk bX bY bZ]
    exact CornerPosition_toFInt3 _ B D k hD hk bX.1 bY.1 bZ.1
  have e0 := hv 0 v0 (by omega) h0
  have e1 := hv 1 v1 (by omega) h1
  have e2 := hv 2 v2 (by omega) h2
  have e3 := hv 3 v3 (by omega) h3
  unfold TriangleFacing
  rw [e0, e1, e2, e3, facing_translate, facing_translate]
  exact table_winding D hD

set_option maxRecDepth 100000 in
theorem winding_consistency_witness :
    FBrickChunkSceneProxy.ctor singleBrickChunk = some singleBrickMesh ∧
    (singleBrickChunk.Grid.BricksPerRenderChunk.X + 1 ≤ 255 ∧
      singleBrickChunk.Grid.BricksPerRenderChunk.Y + 1 ≤ 255 ∧
      singleBrickChunk.Grid.BricksPerRenderChunk.Z + 1 ≤ 255) ∧
    ∀ (q : Nat) (B : FInt3) (D : Nat) (v0 v1 v2 v3 : FBrickVertex),
      (EmittedFaces singleBrickChunk)[q]? = some (B, D) →
      singleBrickMesh.Vertices[4 * q + 0]? = some v0 →
      singleBrickMesh.Vertices[4 * q + 1]? = some v1 →
      singleBrickMesh.Vertices[4 * q + 2]? = some v2 →
      singleBrickMesh.Vertices[4 * q + 3]? = some v3 →
      TriangleFacing v0 v1 v2 (FaceNormals D) = -1 ∧
        TriangleFacing v0 v2 v3 (FaceNormals D) = -1 :=
  ⟨by decide, by decide,
    winding_consistency singleBrickChunk singleBrickMesh (by decide) (by decide)⟩

set_option maxRecDepth 100000 in
/-- C9 (counterexample). In the mesh of the single brick of the spec example, the first
emitted face is the face -X of the brick (0,0,0), with vertices (0,1,0), (0,1,1), (0,0,1),
(0,0,0); for both of its triangles the cross product of the edges has dot product -1 with
the outward normal (-1,0,0), which is not positive. -/
theorem winding_counterexample :
    FBrickChunkSceneProxy.ctor singleBrickChunk = some singleBrickMesh ∧
    (EmittedFaces singleBrickChunk)[0]? = some (⟨0, 0, 0⟩, 0) ∧
    singleBrickMesh.Vertices.take 4 = [⟨0, 1, 0⟩, ⟨0, 1, 1⟩, ⟨0, 0, 1⟩, ⟨0, 0, 0⟩] ∧
    FaceNormals 0 = ⟨-1, 0, 0⟩ ∧
    ¬ (0 < TriangleFacing ⟨0, 1, 0⟩ ⟨0, 1, 1⟩ ⟨0, 0, 1⟩ (FaceNormals 0)) ∧
    ¬ (0 < TriangleFacing ⟨0, 1, 0⟩ ⟨0, 0, 1⟩ ⟨0, 0, 0⟩ (FaceNormals 0)) := by
  decide

/-! ## C10: locality -/

set_option maxRecDepth 100000 in
/-- C10 (failing input). The grids `haloBrickGrid` and `haloBrickGrid2` agree on every
coordinate `C` with `MinBrick - 1 <= C <= MaxBrickExclusive` of the chunk (0,0,0) (they
differ only at (3,0,0)), yet the constructor returns different meshes: 24 vertices for
the first, 20 for the second. -/
theorem locality_failing_input :
    (∀ C : FInt3, (MinBrickCoordinates haloBrickChunk - FInt3.Scalar 1).le C →
      C.le (MinBrickCoordinates haloBrickChunk + haloBrickChunk.Grid.BricksPerRenderChunk) →
      haloBrickChunk.Grid.GetBrick C = haloBrickChunk2.Grid.GetBrick C) ∧
    (FBrickChunkSceneProxy.ctor haloBrickChunk).map (fun r => r.Vertices.length) = some 24 ∧
    (FBrickChunkSceneProxy.ctor haloBrickChunk2).map (fun r => r.Vertices.length) = some 20 ∧
    FBrickChunkSceneProxy.ctor haloBrickChunk ≠ FBrickChunkSceneProxy.ctor haloBrickChunk2 := by
  refine ⟨?_, by decide, by decide, by decide⟩
  intro C _ hle
  show (if C = ⟨2, 0, 0⟩ then 1 else 0) = (if C = ⟨2, 0, 0⟩ ∨ C = ⟨3, 0, 0⟩ then 1 else 0)
  have hne : C ≠ ⟨3, 0, 0⟩ := by
    rintro rfl
    exact absurd hle (by decide)
  simp [hne]

/-! ## C11: vertex capacity -/

theorem slabFace_mem_EmittedFaces (n : Nat) (hn : n < 18513) :
    slabFace n ∈ EmittedFaces slabChunk := by
  have hmin : MinBrickCoordinates slabChunk = ⟨0, 0, 0⟩ := by decide
  have hmax : MaxBrickCoordinatesPlus1 slabChunk = ⟨33, 33, 33⟩ := by decide
  show ((slabFace n).1, (slabFace n).2) ∈ EmittedFaces slabChunk
  rw [mem_EmittedFaces, mem_TraversalBricks, hmin, hmax]
  refine ⟨⟨?_, ?_⟩, by show 0 < 6; decide, ?_, ?_⟩
  · simp only [FInt3.le, slabFace]
    omega
  · simp only [FInt3.lt, slabFace]
    omega
  · show (if (2 * ((n % 17 : Nat) : Int)) % 2 = 0 then 1 else 0) ≠ 0
    rw [if_pos (by omega)]
    decide
  · show (if (2 * ((n % 17 : Nat) : Int) + -1) % 2 = 0 then 1 else 0) = 0
    rw [if_neg (by omega)]

theorem slabFace_injOn (n : Nat) (hn : n < 18513) (m : Nat) (hm : m < 18513)
    (h : slabFace n = slabFace m) : n = m := by
  simp only [slabFace, Prod.mk.injEq, FInt3.mk.injEq, and_true] at h
  omega

/-- The chunk of `slabGrid` has more than 18513 emitted faces. -/
theorem length_EmittedFaces_slabChunk : 18513 ≤ (EmittedFaces slabChunk).length := by
  have hnd : ((List.range 18513).map slabFace).Nodup := by
    apply List.Nodup.map_on _ (List.nodup_range _)
    intro n hn m hm h
    exact slabFace_injOn n (List.mem_range.1 hn) m (List.mem_range.1 hm) h
  have hsub : (List.range 18513).map slabFace ⊆ EmittedFaces slabChunk := by
    intro f hf
    rw [List.mem_map] at hf
    obtain ⟨n, hn, rfl⟩ := hf
    exact slabFace_mem_EmittedFaces n (List.mem_range.1 hn)
  have := (List.subperm_of_subset hnd hsub).length_le
  rw [List.length_map, List.length_range] at this
  exact this

/-- C11 (counterexample). The chunk of `slabGrid` has 32 bricks per axis, so every vertex
coordinate is at most 33 and fits 8 bits; the constructor succeeds and produces more than
65536 vertices (each of the 18513 visited solid bricks has at least its face -X exposed,
which already gives 74052 vertices). -/
theorem vertex_capacity_counterexample :
    slabChunk.Grid.BricksPerRenderChunk = ⟨32, 32, 32⟩ ∧
    ∃ r, FBrickChunkSceneProxy.ctor slabChunk = some r ∧
      (∀ v ∈ r.Vertices, v.X ≤ 33 ∧ v.Y ≤ 33 ∧ v.Z ≤ 33) ∧
      ¬ (r.Vertices.length ≤ 65536) := by
  refine ⟨by decide, ?_⟩
  have hvalid : ∀ f ∈ EmittedFaces slabChunk,
      slabChunk.Grid.GetBrick f.1 < slabChunk.Grid.NumMaterials := by
    intro f _
    show (if f.1.X % 2 = 0 then 1 else 0) < 2
    split <;> decide
  obtain ⟨r, hr⟩ := ctor_of_valid slabChunk hvalid
  obtain ⟨hV, _⟩ := length_Vertices_Indices hr
  have hlen := length_EmittedFaces_slabChunk
  refine ⟨r, hr, ?_, by omega⟩
  intro v hv
  obtain ⟨_, hVe, _, _⟩ := ctor_some hr
  rw [hVe, List.mem_flatMap] at hv
  obtain ⟨f, hf, hvf⟩ := hv
  have hf' : (f.1, f.2) ∈ EmittedFaces slabChunk := hf
  rw [mem_EmittedFaces] at hf'
  obtain ⟨hB, hD, _, _⟩ := hf'
  obtain ⟨bX, bY, bZ⟩ := chunk_brick_bounds slabChunk f.1 (by decide) hB
  have hmin : MinBrickCoordinates slabChunk = ⟨0, 0, 0⟩ := by decide
  have hmax : MaxBrickCoordinatesPlus1 slabChunk = ⟨33, 33, 33⟩ := by decide
  rw [mem_TraversalBricks, hmin, hmax] at hB
  simp only [FInt3.le, FInt3.lt] at hB
  simp only [QuadVertices, List.mem_map, List.mem_range] at hvf
  obtain ⟨k, hk, rfl⟩ := hvf
  obtain ⟨h1, h2, h3⟩ := corner_offset_range f.2 k hD hk
  rw [hmin] at bX bY bZ
  simp only [FaceVertex, toUInt8, FInt3.add_X, FInt3.add_Y, FInt3.add_Z, FInt3.sub_X,
    FInt3.sub_Y, FInt3.sub_Z, hmin]
  omega

theorem nodup_BrickFaces (Grid : UBrickGridComponent) (B : FInt3) :
    (BrickFaces Grid B).Nodup := by
  unfold BrickFaces
  split
  · apply List.Nodup.map _ ((List.nodup_range 6).filter _)
    intro a b hab
    simp only [Prod.mk.injEq, true_and] at hab
    exact hab
  · exact List.nodup_nil

theorem nodup_EmittedFaces (Component : UBrickRenderComponent) :
    (EmittedFaces Component).Nodup := by
  unfold EmittedFaces
  rw [List.nodup_flatMap]
  refine ⟨fun B _ => nodup_BrickFaces _ B, ?_⟩
  refine (nodup_TraversalBricks Component).imp ?_
  intro a b hab
  simp only [Function.onFun]
  rw [List.disjoint_left]
  intro f h1 h2
  rw [mem_BrickFaces] at h1 h2
  exact hab (h1.1.symm.trans h2.1)

/-- Two distinct emitted faces lie in distinct grid planes: the two faces of one plane
belong to two adjacent bricks, and of two adjacent bricks at most one shows its face to
the other. -/
theorem FaceSlot_injOn (Component : UBrickRenderComponent) (f g : FInt3 × Nat)
    (hf : f ∈ EmittedFaces Component) (hg : g ∈ EmittedFaces Component)
    (h : FaceSlot f = FaceSlot g) : f = g := by
  obtain ⟨B, D⟩ := f
  obtain ⟨B', D'⟩ := g
  rw [mem_EmittedFaces] at hf hg
  obtain ⟨_, hD, hs, hfr⟩ := hf
  obtain ⟨_, hD', hs', hfr'⟩ := hg
  simp only [FaceSlot, Prod.mk.injEq] at h
  obtain ⟨h0, h1, h2, h3⟩ := h
  have hcases : (D = D' ∧ B = B') ∨ (B' = B + FaceNormals D) ∨ (B = B' + FaceNormals D') := by
    rw [FInt3.ext_iff3, FInt3.ext_iff3, FInt3.ext_iff3]
    simp only [FInt3.add_X, FInt3.add_Y, FInt3.add_Z]
    interval_cases D <;> interval_cases D' <;>
      simp [FaceNormals, FaceNormalsTable] at h0 h1 h2 h3 ⊢ <;> omega
  rcases hcases with ⟨rfl, rfl⟩ | hc | hc
  · rfl
  · rw [← hc] at hfr
    exact absurd hfr hs'
  · rw [← hc] at hfr'
    exact absurd hfr' hs

theorem FaceSlot_mem_BoxSlots (Component : UBrickRenderComponent) (f : FInt3 × Nat)
    (hf : f ∈ EmittedFaces Component) :
    FaceSlot f ∈ BoxSlots (MinBrickCoordinates Component)
      (MaxBrickCoordinatesPlus1 Component) := by
  obtain ⟨B, D⟩ := f
  rw [mem_EmittedFaces, mem_TraversalBricks] at hf
  obtain ⟨⟨⟨h1, h2, h3⟩, h4, h5, h6⟩, hD, _, _⟩ := hf
  simp only [BoxSlots, FaceSlot, Finset.mem_union, Finset.mem_product, Finset.mem_singleton,
    Finset.mem_Ico]
  interval_cases D <;> simp <;> omega

theorem card_BoxSlots_le (Lo Hi : FInt3) :
    (BoxSlots Lo Hi).card ≤
      ((Hi.X - Lo.X).toNat + 1) * ((Hi.Y - Lo.Y).toNat * (Hi.Z - Lo.Z).toNat) +
      ((Hi.X - Lo.X).toNat * (((Hi.Y - Lo.Y).toNat + 1) * (Hi.Z - Lo.Z).toNat) +
      (Hi.X - Lo.X).toNat * ((Hi.Y - Lo.Y).toNat * ((Hi.Z - Lo.Z).toNat + 1))) := by
  unfold BoxSlots
  refine (Finset.card_union_le _ _).trans ?_
  refine Nat.add_le_add ?_ ((Finset.card_union_le _ _).trans (Nat.add_le_add ?_ ?_))
  · simp only [Finset.card_product, Finset.card_singleton, Int.card_Ico, Nat.one_mul]
    exact Nat.mul_le_mul_right _ (by omega)
  · simp only [Finset.card_product, Finset.card_singleton, Int.card_Ico, Nat.one_mul]
    exact Nat.mul_le_mul_left _ (Nat.mul_le_mul_right _ (by omega))
  · simp only [Finset.card_product, Finset.card_singleton, Int.card_Ico, Nat.one_mul]
    exact Nat.mul_le_mul_left _ (Nat.mul_le_mul_left _ (by omega))

/-- The number of emitted faces is at most the number of grid planes of the visited
bricks. -/
theorem length_EmittedFaces_le (Component : UBrickRenderComponent) :
    (EmittedFaces Component).length ≤
      (BoxSlots (MinBrickCoordinates Component) (MaxBrickCoordinatesPlus1 Component)).card := by
  have hnd : ((EmittedFaces Component).map FaceSlot).Nodup :=
    List.Nodup.map_on (fun f hf g hg h => FaceSlot_injOn Component f g hf hg h)
      (nodup_EmittedFaces Component)
  rw [← List.length_map (EmittedFaces Component) FaceSlot, ← List.toFinset_card_of_nodup hnd]
  apply Finset.card_le_card
  intro s hs
  rw [List.mem_toFinset, List.mem_map] at hs
  obtain ⟨f, hf, rfl⟩ := hs
  exact FaceSlot_mem_BoxSlots Component f hf

/-- C11 (amended). Whenever the constructor succeeds for a chunk of at most 16 bricks per
axis, it produces at most 65536 vertices (at most 62424: four for each of at most
15606 faces). -/
theorem vertex_capacity (Component : UBrickRenderComponent) (r : FBrickChunkSceneProxy)
    (h : FBrickChunkSceneProxy.ctor Component = some r)
    (hsize : Component.Grid.BricksPerRenderChunk.X ≤ 16 ∧
      Component.Grid.BricksPerRenderChunk.Y ≤ 16 ∧
      Component.Grid.BricksPerRenderChunk.Z ≤ 16) :
    r.Vertices.length ≤ 62424 ∧ r.Vertices.length ≤ 65536 := by
  obtain ⟨hV, _⟩ := length_Vertices_Indices h
  have h1 := length_EmittedFaces_le Component
  have h2 := card_BoxSlots_le (MinBrickCoordinates Component)
    (MaxBrickCoordinatesPlus1 Component)
  have ha : ((MaxBrickCoordinatesPlus1 Component).X -
      (MinBrickCoordinates Component).X).toNat ≤ 17 := by
    simp only [MaxBrickCoordinatesPlus1, FInt3.add_X, FInt3.Scalar]
    omega
  have hb : ((MaxBrickCoordinatesPlus1 Component).Y -
      (MinBrickCoordinates Component).Y).toNat ≤ 17 := by
    simp only [MaxBrickCoordinatesPlus1, FInt3.add_Y, FInt3.Scalar]
    omega
  have hc : ((MaxBrickCoordinatesPlus1 Component).Z -
      (MinBrickCoordinates Component).Z).toNat ≤ 17 := by
    simp only [MaxBrickCoordinatesPlus1, FInt3.add_Z, FInt3.Scalar]
    omega
  generalize ((MaxBrickCoordinatesPlus1 Component).X -
    (MinBrickCoordinates Component).X).toNat = a at h2 ha
  generalize ((MaxBrickCoordinatesPlus1 Component).Y -
    (MinBrickCoordinates Component).Y).toNat = b at h2 hb
  generalize ((MaxBrickCoordinatesPlus1 Component).Z -
    (MinBrickCoordinates Component).Z).toNat = c at h2 hc
  have e1 : (a + 1) * (b * c) ≤ 18 * (17 * 17) :=
    Nat.mul_le_mul (by omega) (Nat.mul_le_mul hb hc)
  have e2 : a * ((b + 1) * c) ≤ 17 * (18 * 17) :=
    Nat.mul_le_mul ha (Nat.mul_le_mul (by omega) hc)
  have e3 : a * (b * (c + 1)) ≤ 17 * (17 * 18) :=
    Nat.mul_le_mul ha (Nat.mul_le_mul hb (by omega))
  omega

theorem vertex_capacity_witness :
    (checkerChunk.Grid.BricksPerRenderChunk.X ≤ 16 ∧
      checkerChunk.Grid.BricksPerRenderChunk.Y ≤ 16 ∧
      checkerChunk.Grid.BricksPerRenderChunk.Z ≤ 16) ∧
    ∃ r, FBrickChunkSceneProxy.ctor checkerChunk = some r ∧
      r.Vertices.length = 58968 ∧
      r.Vertices.length ≤ 62424 ∧ r.Vertices.length ≤ 65536 := by
  have hsize : checkerChunk.Grid.BricksPerRenderChunk.X ≤ 16 ∧
      checkerChunk.Grid.BricksPerRenderChunk.Y ≤ 16 ∧
      checkerChunk.Grid.BricksPerRenderChunk.Z ≤ 16 := by decide
  have hvalid : ∀ f ∈ EmittedFaces checkerChunk,
      checkerChunk.Grid.GetBrick f.1 < checkerChunk.Grid.NumMaterials := by
    intro f _
    show (if (f.1.X + f.1.Y + f.1.Z) % 2 = 0 then 1 else 0) < 2
    split <;> decide
  obtain ⟨r, hr⟩ := ctor_of_valid checkerChunk hvalid
  obtain ⟨hV, _⟩ := length_Vertices_Indices hr
  have hF := length_EmittedFaces_checkerChunk
  exact ⟨hsize, r, hr, by omega, vertex_capacity checkerChunk r hr hsize⟩

/-! ## C12: no face is lost, duplicated or shared -/

theorem flatMap_congr_of_mem {α β : Type} (l : List α) (f g : α → List β)
    (h : ∀ a ∈ l, f a = g a) : l.flatMap f = l.flatMap g := by
  induction l with
  | nil => rfl
  | cons a l ih =>
    rw [List.flatMap_cons, List.flatMap_cons, h a (List.mem_cons_self _ _),
      ih (fun b hb => h b (List.mem_cons_of_mem _ hb))]

/-- C12. Whenever the constructor succeeds with `F` emitted faces and at most 65536
vertices, `vertices.length = 4 * F`, `indices.length = 6 * F`, and the index buffer, read
as unsigned 16-bit values, is the concatenation of the groups `(b, b+1, b+2, b, b+2, b+3)`
of a list of bases that is a permutation of `0, 4, .., 4 * (F - 1)`: every base is a
multiple of four and occurs in exactly one group. With at most 32768 vertices the same
holds for the stored `int16` values themselves. -/
theorem no_face_lost (Component : UBrickRenderComponent) (r : FBrickChunkSceneProxy)
    (h : FBrickChunkSceneProxy.ctor Component = some r)
    (hcap : r.Vertices.length ≤ 65536) :
    r.Vertices.length = 4 * (EmittedFaces Component).length ∧
    r.Indices.length = 6 * (EmittedFaces Component).length ∧
    ∃ bases : List Nat,
      bases.Perm ((List.range (EmittedFaces Component).length).map (fun q => 4 * q)) ∧
      r.Indices.map (fun i => i % 65536) = bases.flatMap QuadGroup ∧
      (r.Vertices.length ≤ 32768 → r.Indices = bases.flatMap QuadGroup) := by
  obtain ⟨hlenV, hlenI⟩ := length_Vertices_Indices h
  obtain ⟨hI, hperm⟩ := Indices_eq_flatMap_bases h
  have hb : ∀ b ∈ (BatchPairs Component.Grid.NumMaterials).flatMap
      (fun p => BasesOf Component.Grid (EmittedFaces Component) 0 p.1 p.2),
      b + 4 ≤ r.Vertices.length := by
    intro b hbm
    have := hperm.subset hbm
    rw [List.mem_map] at this
    obtain ⟨q, hq, rfl⟩ := this
    rw [List.mem_range] at hq
    omega
  refine ⟨hlenV, hlenI, _, hperm, ?_, ?_⟩
  · rw [hI, List.map_flatMap]
    apply flatMap_congr_of_mem
    intro b hbm
    exact FaceIndices_mod_eq_QuadGroup b (by have := hb b hbm; omega)
  · intro hsmall
    rw [hI]
    apply flatMap_congr_of_mem
    intro b hbm
    exact FaceIndices_eq_QuadGroup b (by have := hb b hbm; omega)

set_option maxRecDepth 100000 in
theorem no_face_lost_witness :
    FBrickChunkSceneProxy.ctor singleBrickChunk = some singleBrickMesh ∧
    singleBrickMesh.Vertices.length ≤ 65536 ∧
    singleBrickMesh.Vertices.length = 4 * (EmittedFaces singleBrickChunk).length ∧
    singleBrickMesh.Indices.length = 6 * (EmittedFaces singleBrickChunk).length ∧
    ∃ bases : List Nat,
      bases.Perm ((List.range (EmittedFaces singleBrickChunk).length).map (fun q => 4 * q)) ∧
      singleBrickMesh.Indices.map (fun i => i % 65536) = bases.flatMap QuadGroup ∧
      (singleBrickMesh.Vertices.length ≤ 32768 →
        singleBrickMesh.Indices = bases.flatMap QuadGroup) :=
  ⟨by decide, by decide, no_face_lost singleBrickChunk singleBrickMesh (by decide) (by decide)⟩

/-! ## C13: the face tables -/

theorem GetCornerVertexOffset_bits (i : Nat) :
    GetCornerVertexOffset i = ⟨((i / 4 % 2 : Nat) : Int), ((i / 2 % 2 : Nat) : Int),
      ((i % 2 : Nat) : Int)⟩ := by
  rw [FInt3.ext_iff3]
  simp only [GetCornerVertexOffset, FInt3.and1, FInt3.shr, FInt3.Scalar]
  refine ⟨?_, ?_, ?_⟩
  · have : ((2 : Int) ^ (2 : Int).toNat) = 4 := by decide
    rw [this]
    omega
  · have : ((2 : Int) ^ (1 : Int).toNat) = 2 := by decide
    rw [this]
    omega
  · have : ((2 : Int) ^ (0 : Int).toNat) = 1 := by decide
    rw [this]
    omega

/-- C13. `GetCornerVertexOffset` maps a corner index `i` to (bit 2 of `i`, bit 1 of `i`,
bit 0 of `i`), and on the corner indices 0..7 it is a bijection onto `{0,1}^3`. For every
face direction `D < 6`: the normal `FaceNormals[D]` is a unit axis vector; the four
corners `FaceVertices[D][0..3]` are corner indices below 8 and pairwise distinct; each of
them lies on the face of the unit cube with that outward normal (its coordinate along
the axis of the normal is 1 for a positive direction and 0 for a negative one); and two
cyclically consecutive corners differ in exactly one coordinate. -/
theorem face_tables_consistent :
    (∀ i : Nat, GetCornerVertexOffset i =
      ⟨((i / 4 % 2 : Nat) : Int), ((i / 2 % 2 : Nat) : Int), ((i % 2 : Nat) : Int)⟩) ∧
    (∀ i : Nat, i < 8 → ∀ j : Nat, j < 8 →
      GetCornerVertexOffset i = GetCornerVertexOffset j → i = j) ∧
    (∀ a : Nat, a < 2 → ∀ b : Nat, b < 2 → ∀ c : Nat, c < 2 →
      ∃ i : Nat, i < 8 ∧ GetCornerVertexOffset i = ⟨(a : Int), (b : Int), (c : Int)⟩) ∧
    (∀ D : Nat, D < 6 →
      ((FaceNormals D).X ^ 2 + (FaceNormals D).Y ^ 2 + (FaceNormals D).Z ^ 2 = 1) ∧
      (∀ k : Nat, k < 4 → FaceVertices D k < 8) ∧
      (∀ k : Nat, k < 4 → ∀ l : Nat, l < 4 → FaceVertices D k = FaceVertices D l → k = l) ∧
      (∀ k : Nat, k < 4 →
        ((FaceNormals D).X = 1 → (GetCornerVertexOffset (FaceVertices D k)).X = 1) ∧
        ((FaceNormals D).X = -1 → (GetCornerVertexOffset (FaceVertices D k)).X = 0) ∧
        ((FaceNormals D).Y = 1 → (GetCornerVertexOffset (FaceVertices D k)).Y = 1) ∧
        ((FaceNormals D).Y = -1 → (GetCornerVertexOffset (FaceVertices D k)).Y = 0) ∧
        ((FaceNormals D).Z = 1 → (GetCornerVertexOffset (FaceVertices D k)).Z = 1) ∧
        ((FaceNormals D).Z = -1 → (GetCornerVertexOffset (FaceVertices D k)).Z = 0)) ∧
      (∀ k : Nat, k < 4 →
        ((GetCornerVertexOffset (FaceVertices D k)).X -
            (GetCornerVertexOffset (FaceVertices D ((k + 1) % 4))).X).natAbs +
          ((GetCornerVertexOffset (FaceVertices D k)).Y -
            (GetCornerVertexOffset (FaceVertices D ((k + 1) % 4))).Y).natAbs +
          ((GetCornerVertexOffset (FaceVertices D k)).Z -
            (GetCornerVertexOffset (FaceVertices D ((k + 1) % 4))).Z).natAbs = 1)) := by
  refine ⟨GetCornerVertexOffset_bits, by decide, by decide, ?_⟩
  intro D hD
  have h1 : ∀ D : Nat, D < 6 →
      (FaceNormals D).X ^ 2 + (FaceNormals D).Y ^ 2 + (FaceNormals D).Z ^ 2 = 1 := by decide
  have h2 : ∀ D : Nat, D < 6 → ∀ k : Nat, k < 4 → FaceVertices D k < 8 := by decide
  have h3 : ∀ D : Nat, D < 6 → ∀ k : Nat, k < 4 → ∀ l : Nat, l < 4 →
      FaceVertices D k = FaceVertices D l → k = l := by decide
  have h4 : ∀ D : Nat, D < 6 → ∀ k : Nat, k < 4 →
      ((FaceNormals D).X = 1 → (GetCornerVertexOffset (FaceVertices D k)).X = 1) ∧
      ((FaceNormals D).X = -1 → (GetCornerVertexOffset (FaceVertices D k)).X = 0) ∧
      ((FaceNormals D).Y = 1 → (GetCornerVertexOffset (FaceVertices D k)).Y = 1) ∧
      ((FaceNormals D).Y = -1 → (GetCornerVertexOffset (FaceVertices D k)).Y = 0) ∧
      ((FaceNormals D).Z = 1 → (GetCornerVertexOffset (FaceVertices D k)).Z = 1) ∧
      ((FaceNormals D).Z = -1 → (GetCornerVertexOffset (FaceVertices D k)).Z = 0) := by
    intro D hD k hk
    interval_cases D <;> interval_cases k <;> decide
  have h5 : ∀ D : Nat, D < 6 → ∀ k : Nat, k < 4 →
      ((GetCornerVertexOffset (FaceVertices D k)).X -
          (GetCornerVertexOffset (FaceVertices D ((k + 1) % 4))).X).natAbs +
        ((GetCornerVertexOffset (FaceVertices D k)).Y -
          (GetCornerVertexOffset (FaceVertices D ((k + 1) % 4))).Y).natAbs +
        ((GetCornerVertexOffset (FaceVertices D k)).Z -
          (GetCornerVertexOffset (FaceVertices D ((k + 1) % 4))).Z).natAbs = 1 := by decide
  exact ⟨h1 D hD, h2 D hD, h3 D hD, h4 D hD, h5 D hD⟩

/-- The statement of C13 at the face +Y, whose corners are 6, 7, 3, 2. -/
theorem face_tables_consistent_witness :
    (3 < 6) ∧ (FaceNormals 3 = ⟨0, 1, 0⟩) ∧
    (List.range 4).map (FaceVertices 3) = [6, 7, 3, 2] ∧
    ((FaceNormals 3).X ^ 2 + (FaceNormals 3).Y ^ 2 + (FaceNormals 3).Z ^ 2 = 1) ∧
    (∀ k : Nat, k < 4 → FaceVertices 3 k < 8) ∧
    (∀ k : Nat, k < 4 → ∀ l : Nat, l < 4 → FaceVertices 3 k = FaceVertices 3 l → k = l) ∧
    (∀ k : Nat, k < 4 →
      ((FaceNormals 3).X = 1 → (GetCornerVertexOffset (FaceVertices 3 k)).X = 1) ∧
      ((FaceNormals 3).X = -1 → (GetCornerVertexOffset (FaceVertices 3 k)).X = 0) ∧
      ((FaceNormals 3).Y = 1 → (GetCornerVertexOffset (FaceVertices 3 k)).Y = 1) ∧
      ((FaceNormals 3).Y = -1 → (GetCornerVertexOffset (FaceVertices 3 k)).Y = 0) ∧
      ((FaceNormals 3).Z = 1 → (GetCornerVertexOffset (FaceVertices 3 k)).Z = 1) ∧
      ((FaceNormals 3).Z = -1 → (GetCornerVertexOffset (FaceVertices 3 k)).Z = 0)) ∧
    (∀ k : Nat, k < 4 →
      ((GetCornerVertexOffset (FaceVertices 3 k)).X -
          (GetCornerVertexOffset (FaceVertices 3 ((k + 1) % 4))).X).natAbs +
        ((GetCornerVertexOffset (FaceVertices 3 k)).Y -
          (GetCornerVertexOffset (FaceVertices 3 ((k + 1) % 4))).Y).natAbs +
        ((GetCornerVertexOffset (FaceVertices 3 k)).Z -
          (GetCornerVertexOffset (FaceVertices 3 ((k + 1) % 4))).Z).natAbs = 1) :=
  ⟨by decide, by decide, by decide, face_tables_consistent.2.2.2 3 (by decide)⟩

/-! ## C14: totality under the material precondition -/

/-- C14. If every brick that the traversal visits is empty or holds a material index
below `Materials.Num()`, then the constructor completes (it returns a mesh): every batch
lookup `MaterialBatches[BrickMaterial].FaceBatches[FaceIndex]` it performs, one for each
emitted face, has `BrickMaterial < Materials.Num()` and `FaceIndex < 6`, and the four
vertices and six indices of every face are written. -/
theorem build_total (Component : UBrickRenderComponent)
    (hmat : ∀ B : FInt3, (MinBrickCoordinates Component).le B →
      B.lt (MaxBrickCoordinatesPlus1 Component) →
      Component.Grid.GetBrick B = Component.Grid.EmptyMaterialIndex ∨
        Component.Grid.GetBrick B < Component.Grid.NumMaterials) :
    ∃ r, FBrickChunkSceneProxy.ctor Component = some r ∧
      (∀ f ∈ EmittedFaces Component,
        Component.Grid.GetBrick f.1 < Component.Grid.NumMaterials ∧ f.2 < 6) ∧
      r.Vertices.length = 4 * (EmittedFaces Component).length ∧
      r.Indices.length = 6 * (EmittedFaces Component).length := by
  have hvalid : ∀ f ∈ EmittedFaces Component,
      Component.Grid.GetBrick f.1 < Component.Grid.NumMaterials ∧ f.2 < 6 := by
    intro f hf
    have hf' : (f.1, f.2) ∈ EmittedFaces Component := hf
    rw [mem_EmittedFaces, mem_TraversalBricks] at hf'
    obtain ⟨⟨h1, h2⟩, hD, hsolid, _⟩ := hf'
    rcases hmat f.1 h1 h2 with he | hlt
    · exact absurd he hsolid
    · exact ⟨hlt, hD⟩
  obtain ⟨r, hr⟩ := ctor_of_valid Component (fun f hf => (hvalid f hf).1)
  obtain ⟨hV, hI⟩ := length_Vertices_Indices hr
  exact ⟨r, hr, hvalid, hV, hI⟩

theorem build_total_witness :
    (∀ B : FInt3, (MinBrickCoordinates twoMaterialChunk).le B →
      B.lt (MaxBrickCoordinatesPlus1 twoMaterialChunk) →
      twoMaterialChunk.Grid.GetBrick B = twoMaterialChunk.Grid.EmptyMaterialIndex ∨
        twoMaterialChunk.Grid.GetBrick B < twoMaterialChunk.Grid.NumMaterials) ∧
    ∃ r, FBrickChunkSceneProxy.ctor twoMaterialChunk = some r ∧
      (∀ f ∈ EmittedFaces twoMaterialChunk,
        twoMaterialChunk.Grid.GetBrick f.1 < twoMaterialChunk.Grid.NumMaterials ∧ f.2 < 6) ∧
      r.Vertices.length = 4 * (EmittedFaces twoMaterialChunk).length ∧
      r.Indices.length = 6 * (EmittedFaces twoMaterialChunk).length :=
  have hmat : ∀ B : FInt3, (MinBrickCoordinates twoMaterialChunk).le B →
      B.lt (MaxBrickCoordinatesPlus1 twoMaterialChunk) →
      twoMaterialChunk.Grid.GetBrick B = twoMaterialChunk.Grid.EmptyMaterialIndex ∨
        twoMaterialChunk.Grid.GetBrick B < twoMaterialChunk.Grid.NumMaterials := by
    intro B _ _
    right
    show (if B = ⟨0, 0, 0⟩ then 1 else if B = ⟨1, 0, 0⟩ then 2 else 0) < 3
    split
    · decide
    · split <;> decide
  ⟨hmat, build_total twoMaterialChunk hmat⟩

/-! ## C15: the vertex range of a mesh batch -/

/-- C15. Whenever the constructor succeeds with at most 32768 vertices (no `int16` index
wraps around), for every element `E` of the mesh the two reads of the index buffer in
`GetMeshBatch`, at `FirstIndex` and at `FirstIndex + NumPrimitives * 3 - 1`, are in
bounds, so `GetMeshBatch` returns a batch; its `MinVertexIndex` is an index of the run of
`E` and no index of the run is smaller, and its `MaxVertexIndex` is an index of the run
of `E` and no index of the run is larger. -/
theorem mesh_batch_vertex_range (Component : UBrickRenderComponent)
    (r : FBrickChunkSceneProxy)
    (h : FBrickChunkSceneProxy.ctor Component = some r)
    (hcap : r.Vertices.length ≤ 32768) :
    ∀ (i : Nat) (E : FElement), r.Elements[i]? = some E →
      E.FirstIndex < r.Indices.length ∧
      0 < E.NumPrimitives * 3 ∧
      E.FirstIndex + E.NumPrimitives * 3 - 1 < r.Indices.length ∧
      ∃ mb, r.GetMeshBatch i = some mb ∧
        mb.FirstIndex = E.FirstIndex ∧ mb.NumPrimitives = E.NumPrimitives ∧
        ((mb.MinVertexIndex : Int) ∈ ElementRun r E ∧
          ∀ idx ∈ ElementRun r E, (mb.MinVertexIndex : Int) ≤ idx) ∧
        ((mb.MaxVertexIndex : Int) ∈ ElementRun r E ∧
          ∀ idx ∈ ElementRun r E, idx ≤ (mb.MaxVertexIndex : Int)) := by
  intro i E hiE
  have hE : E ∈ r.Elements := List.mem_iff_getElem?.2 ⟨i, hiE⟩
  obtain ⟨hlenV, hlenI⟩ := length_Vertices_Indices h
  obtain ⟨pre, post, hI, hfirst, hnum, hne⟩ := Indices_around_run h E hE
  have hrun := ElementRun_eq h E hE
  obtain ⟨b0, hb0, hhead, hmin⟩ := head_BatchOf _ _ _ _ _ hne
  obtain ⟨b1, _, hb1, hlast, hmax⟩ := getLast_BatchOf _ _ _ _ _ hne
  have hlenpos : 0 < (BatchOf Component.Grid (EmittedFaces Component) 0
      E.MaterialIndex E.FaceIndex).length := List.length_pos.2 hne
  have hIlen : r.Indices.length = pre.length +
      (BatchOf Component.Grid (EmittedFaces Component) 0
        E.MaterialIndex E.FaceIndex).length + post.length := by
    rw [hI, List.length_append, List.length_append]
  have hread0 : r.Indices[E.FirstIndex]? = some (toInt16 (b0 : Int)) := by
    rw [hI, hfirst, List.append_assoc, List.getElem?_append_right (Nat.le_refl _),
      Nat.sub_self, List.getElem?_append_left hlenpos, ← List.head?_eq_getElem?]
    exact hhead
  have hpos : (E.FirstIndex + E.NumPrimitives * 3 + 4294967295) % 4294967296 =
      E.FirstIndex + E.NumPrimitives * 3 - 1 := by omega
  have hread1 : r.Indices[E.FirstIndex + E.NumPrimitives * 3 - 1]? =
      some (toInt16 ((b1 + 3 : Nat) : Int)) := by
    have e : E.FirstIndex + E.NumPrimitives * 3 - 1 = pre.length +
        ((BatchOf Component.Grid (EmittedFaces Component) 0
          E.MaterialIndex E.FaceIndex).length - 1) := by omega
    rw [hI, e, List.append_assoc, List.getElem?_append_right (by omega),
      Nat.add_sub_cancel_left, List.getElem?_append_left (by omega),
      ← List.getLast?_eq_getElem?]
    exact hlast
  have hv0 : toInt16 (b0 : Int) = (b0 : Int) := by
    unfold toInt16
    omega
  have hv1 : toInt16 ((b1 + 3 : Nat) : Int) = ((b1 + 3 : Nat) : Int) := by
    unfold toInt16
    omega
  have hu0 : toUInt32 (toInt16 (b0 : Int)) = b0 := by
    rw [hv0]
    unfold toUInt32
    omega
  have hu1 : toUInt32 (toInt16 ((b1 + 3 : Nat) : Int)) = b1 + 3 := by
    rw [hv1]
    unfold toUInt32
    omega
  refine ⟨by omega, by omega, by omega, ⟨E.FirstIndex, E.NumPrimitives, b0, b1 + 3⟩, ?_,
    rfl, rfl, ⟨?_, ?_⟩, ⟨?_, ?_⟩⟩
  · unfold FBrickChunkSceneProxy.GetMeshBatch
    simp only [hiE, hpos, hread0, hread1, hu0, hu1]
  · rw [hrun, ← hv0]
    exact List.mem_of_mem_head? hhead
  · intro idx hidx
    rw [hrun] at hidx
    obtain ⟨v, hv, hle, hlt⟩ := hmin idx hidx
    show ((b0 : Nat) : Int) ≤ idx
    rw [hv]
    unfold toInt16
    omega
  · rw [hrun, ← hv1]
    exact List.mem_of_mem_getLast? hlast
  · intro idx hidx
    rw [hrun] at hidx
    obtain ⟨v, hv, hle⟩ := hmax idx hidx
    show idx ≤ ((b1 + 3 : Nat) : Int)
    rw [hv]
    unfold toInt16
    omega

set_option maxRecDepth 100000 in
theorem mesh_batch_vertex_range_witness :
    FBrickChunkSceneProxy.ctor singleBrickChunk = some singleBrickMesh ∧
    singleBrickMesh.Vertices.length ≤ 32768 ∧
    singleBrickMesh.GetMeshBatch 2 = some ⟨12, 2, 8, 11⟩ ∧
    ∀ (i : Nat) (E : FElement), singleBrickMesh.Elements[i]? = some E →
      E.FirstIndex < singleBrickMesh.Indices.length ∧
      0 < E.NumPrimitives * 3 ∧
      E.FirstIndex + E.NumPrimitives * 3 - 1 < singleBrickMesh.Indices.length ∧
      ∃ mb, singleBrickMesh.GetMeshBatch i = some mb ∧
        mb.FirstIndex = E.FirstIndex ∧ mb.NumPrimitives = E.NumPrimitives ∧
        ((mb.MinVertexIndex : Int) ∈ ElementRun singleBrickMesh E ∧
          ∀ idx ∈ ElementRun singleBrickMesh E, (mb.MinVertexIndex : Int) ≤ idx) ∧
        ((mb.MaxVertexIndex : Int) ∈ ElementRun singleBrickMesh E ∧
          ∀ idx ∈ ElementRun singleBrickMesh E, idx ≤ (mb.MaxVertexIndex : Int)) :=
  ⟨by decide, by decide, by decide,
    mesh_batch_vertex_range singleBrickChunk singleBrickMesh (by decide) (by decide)⟩

/-! ## The tangent basis of `FBrickChunkVertexFactory::Init`: exact directions

The tangent itself is a normalised floating-point vector and is outside the embedding;
the facts below concern the direction that is normalised, in exact integer arithmetic. -/

/-- For each of the six faces the direction of the projected tangent is not zero and is
perpendicular to the face normal, and the number whose sign is stored as the handedness
is not zero. -/
theorem tangent_direction_exact :
    ∀ D : Nat, D < 6 →
      ProjectedFaceTangentDirection D ≠ ⟨0, 0, 0⟩ ∧
      (ProjectedFaceTangentDirection D).dot (FaceNormals D) = 0 ∧
      TangentHandedness D ≠ 0 := by
  decide

/-- The handedness numbers of the six faces, in the order -X, +X, -Y, +Y, -Z, +Z. -/
theorem tangent_handedness_table :
    (List.range 6).map TangentHandedness = [-1, 1, -1, 1, 2, -2] := by
  decide

end BrickGrid
